import Mathlib

/-! cvortex: three-dimensional vortex particles (`P3D.cpp`)

A shallow embedding of the vortex-particle operators and of the grid
redistribution of `src/P3D.cpp`.

Conventions of the embedding.

* C `float`/`double` values are elements of a linearly ordered field `K`
  (exact arithmetic: no rounding, no NaN, no infinities).  Every definition is
  computable at `K = ℚ`.  In a field `x / 0 = 0`; the places where the C code
  divides by zero are pointed out where they matter.
* C `int` values are `Int`; array positions and loop counters are `Nat`.
* Arrays are lists; an in-place write `a[j] = v` is `List.set` and a read is
  `List.getD` with a default.  The theorems about the contents of an array
  assume that it holds at least as many elements as the count passed with it.
* `assert` is modelled where it can fail: a function whose assertion can fail
  returns an `Option`, `none` standing for the failed assertion.
* `sqrtf` is a parameter of every function that takes a vector length.
* The functions of the kernel table (`cvtx_VortFunc`, `cvtx_RedistFunc`) are
  fields of a structure passed as a parameter, as in the C code.
-/

namespace Cvortex

/-! ## Vector primitives (`bsv_V3f`) -/

/-- Modelled from the spec: the three-component vector type `bsv_V3f` of the
vector library (`bsv`), whose components are `x[0]`, `x[1]`, `x[2]`. -/
structure bsv_V3f (K : Type) where
  x0 : K
  x1 : K
  x2 : K
deriving DecidableEq

variable {K : Type}

/-- Modelled from the spec: `bsv_V3f_zero`, the zero vector. -/
def bsv_V3f_zero [Zero K] : bsv_V3f K := ⟨0, 0, 0⟩

/-- Modelled from the spec: `bsv_V3f_plus`, component-wise addition. -/
def bsv_V3f_plus [Add K] (a b : bsv_V3f K) : bsv_V3f K :=
  ⟨a.x0 + b.x0, a.x1 + b.x1, a.x2 + b.x2⟩

/-- Modelled from the spec: `bsv_V3f_minus`, component-wise subtraction. -/
def bsv_V3f_minus [Sub K] (a b : bsv_V3f K) : bsv_V3f K :=
  ⟨a.x0 - b.x0, a.x1 - b.x1, a.x2 - b.x2⟩

/-- Modelled from the spec: `bsv_V3f_mult`, multiplication by a scalar. -/
def bsv_V3f_mult [Mul K] (a : bsv_V3f K) (c : K) : bsv_V3f K :=
  ⟨a.x0 * c, a.x1 * c, a.x2 * c⟩

/-- Modelled from the spec: `bsv_V3f_div`, division by a scalar. -/
def bsv_V3f_div [Div K] (a : bsv_V3f K) (c : K) : bsv_V3f K :=
  ⟨a.x0 / c, a.x1 / c, a.x2 / c⟩

/-- Modelled from the spec: `bsv_V3f_cross`, the cross product. -/
def bsv_V3f_cross [Mul K] [Sub K] (a b : bsv_V3f K) : bsv_V3f K :=
  ⟨a.x1 * b.x2 - a.x2 * b.x1, a.x2 * b.x0 - a.x0 * b.x2, a.x0 * b.x1 - a.x1 * b.x0⟩

/-- Modelled from the spec: `bsv_V3f_dot`, the dot product. -/
def bsv_V3f_dot [Mul K] [Add K] (a b : bsv_V3f K) : K :=
  a.x0 * b.x0 + a.x1 * b.x1 + a.x2 * b.x2

/-- Modelled from the spec: `bsv_V3f_abs`, the Euclidean length.  The square
root `sqrtf` of the C library is a parameter. -/
def bsv_V3f_abs [Mul K] [Add K] (sqrtf : K → K) (a : bsv_V3f K) : K :=
  sqrtf (a.x0 * a.x0 + a.x1 * a.x1 + a.x2 * a.x2)

/-- Modelled from the spec: `bsv_V3f_isequal`, component-wise equality. -/
def bsv_V3f_isequal [DecidableEq K] (a b : bsv_V3f K) : Bool :=
  decide (a.x0 = b.x0 ∧ a.x1 = b.x1 ∧ a.x2 = b.x2)

/-! ## Particles -/

/-- The particle type `cvtx_P3D` of `libcvtx.h`: position, vorticity, volume. -/
structure cvtx_P3D (K : Type) where
  coord : bsv_V3f K
  vorticity : bsv_V3f K
  volume : K
deriving DecidableEq

instance [Zero K] : Inhabited (bsv_V3f K) := ⟨bsv_V3f_zero⟩

instance [Zero K] : Zero (bsv_V3f K) := ⟨bsv_V3f_zero⟩

instance [Add K] : Add (bsv_V3f K) := ⟨bsv_V3f_plus⟩

instance [Neg K] : Neg (bsv_V3f K) := ⟨fun a => ⟨-a.x0, -a.x1, -a.x2⟩⟩

instance [LinearOrderedField K] : AddCommGroup (bsv_V3f K) where
  add_assoc a b c := by
    show bsv_V3f_plus (bsv_V3f_plus a b) c = bsv_V3f_plus a (bsv_V3f_plus b c)
    simp [bsv_V3f_plus, add_assoc]
  zero_add a := by
    show bsv_V3f_plus bsv_V3f_zero a = a
    simp [bsv_V3f_plus, bsv_V3f_zero]
  add_zero a := by
    show bsv_V3f_plus a bsv_V3f_zero = a
    simp [bsv_V3f_plus, bsv_V3f_zero]
  add_comm a b := by
    show bsv_V3f_plus a b = bsv_V3f_plus b a
    simp [bsv_V3f_plus, add_comm]
  neg_add_cancel a := by
    show bsv_V3f_plus ⟨-a.x0, -a.x1, -a.x2⟩ a = bsv_V3f_zero
    simp [bsv_V3f_plus, bsv_V3f_zero]
  nsmul := nsmulRec
  zsmul := zsmulRec

instance [Zero K] : Inhabited (cvtx_P3D K) := ⟨⟨bsv_V3f_zero, bsv_V3f_zero, 0⟩⟩

/-! ## The induction operators -/

/-- The constant `CVTX_PI_F` (`P3D.cpp` line 47), the decimal 3.14159265359. -/
def CVTX_PI_F [LinearOrderedField K] : K := 314159265359 / 100000000000

/-- The C library function `powf` at the integer exponents that the code uses. -/
def powf [LinearOrderedField K] (x : K) (n : Int) : K := x ^ n

/-- The regularisation kernel `cvtx_VortFunc` of `libcvtx.h`: the functions
`g_3D`, `combined_3D` (which returns the pair `g`, `f` through its pointer
arguments), `eta_3D` (a pointer that may be `NULL`), `zeta_3D`, and the name
`cl_kernel_name_ext` of the OpenCL kernel. -/
structure cvtx_VortFunc (K : Type) where
  g_3D : K → K
  combined_3D : K → K × K
  eta_3D : Option (K → K)
  zeta_3D : K → K
  cl_kernel_name_ext : String

/-- The function `P3D_vel_inner` (`P3D.cpp` lines 51-72): the induced velocity
without the coefficient `1 / 4pi`. -/
def P3D_vel_inner [LinearOrderedField K] (sqrtf : K → K) (self : cvtx_P3D K)
    (mes_point : bsv_V3f K) (kernel : cvtx_VortFunc K) (recip_reg_rad : K) : bsv_V3f K :=
  if bsv_V3f_isequal self.coord mes_point then bsv_V3f_zero
  else
    let rad := bsv_V3f_minus mes_point self.coord
    let radd := bsv_V3f_abs sqrtf rad
    let rho := radd * recip_reg_rad
    let cor := -kernel.g_3D rho
    let den := powf radd (-3)
    let num := bsv_V3f_cross rad self.vorticity
    bsv_V3f_mult num (cor * den)

/-- The function `cvtx_P3D_S2S_vel` (`P3D.cpp` lines 74-84). -/
def cvtx_P3D_S2S_vel [LinearOrderedField K] (sqrtf : K → K) (self : cvtx_P3D K)
    (mes_point : bsv_V3f K) (kernel : cvtx_VortFunc K) (regularisation_radius : K) :
    bsv_V3f K :=
  let ret := P3D_vel_inner sqrtf self mes_point kernel (1 / |regularisation_radius|)
  bsv_V3f_mult ret (1 / (4 * CVTX_PI_F))

/-- The function `cvtx_P3D_S2S_dvort` (`P3D.cpp` lines 86-114). -/
def cvtx_P3D_S2S_dvort [LinearOrderedField K] (sqrtf : K → K) (self induced_particle : cvtx_P3D K)
    (kernel : cvtx_VortFunc K) (regularisation_radius : K) : bsv_V3f K :=
  if bsv_V3f_isequal self.coord induced_particle.coord then bsv_V3f_zero
  else
    let rad := bsv_V3f_minus induced_particle.coord self.coord
    let radd := bsv_V3f_abs sqrtf rad
    let rho := |radd / regularisation_radius|
    let g := (kernel.combined_3D rho).1
    let f := (kernel.combined_3D rho).2
    let cross_om := bsv_V3f_cross induced_particle.vorticity self.vorticity
    let t1 := 1 / (4 * CVTX_PI_F * powf regularisation_radius 3)
    let t21n := bsv_V3f_mult cross_om g
    let t21d := rho * rho * rho
    let t21 := bsv_V3f_div t21n t21d
    let t221 := -1 / (radd * radd)
    let t222 := (3 * g) / t21d - f
    let t223 := bsv_V3f_dot rad cross_om
    let t22 := bsv_V3f_mult rad (t221 * t222 * t223)
    let t2 := bsv_V3f_plus t21 t22
    bsv_V3f_mult t2 t1

/-- The function `cvtx_P3D_S2S_visc_dvort` (`P3D.cpp` lines 116-144).  The
result is `none` when the assertion `kernel->eta_3D != NULL` fails. -/
def cvtx_P3D_S2S_visc_dvort [LinearOrderedField K] (sqrtf : K → K)
    (self induced_particle : cvtx_P3D K) (kernel : cvtx_VortFunc K)
    (regularisation_radius kinematic_visc : K) : Option (bsv_V3f K) :=
  match kernel.eta_3D with
  | none => none
  | some eta_3D =>
    if bsv_V3f_isequal self.coord induced_particle.coord then some bsv_V3f_zero
    else
      let rad := bsv_V3f_minus self.coord induced_particle.coord
      let radd := bsv_V3f_abs sqrtf rad
      let rho := |radd / regularisation_radius|
      let t1 := 2 * kinematic_visc / powf regularisation_radius 2
      let t211 := bsv_V3f_mult self.vorticity induced_particle.volume
      let t212 := bsv_V3f_mult induced_particle.vorticity (-1 * self.volume)
      let t21 := bsv_V3f_plus t211 t212
      let t22 := eta_3D rho
      let t2 := bsv_V3f_mult t21 t22
      some (bsv_V3f_mult t2 t1)

/-- The function `cvtx_P3D_S2S_vort` (`P3D.cpp` lines 146-161). -/
def cvtx_P3D_S2S_vort [LinearOrderedField K] (sqrtf : K → K) (self : cvtx_P3D K)
    (mes_point : bsv_V3f K) (kernel : cvtx_VortFunc K) (regularisation_radius : K) :
    bsv_V3f K :=
  let rad := bsv_V3f_minus self.coord mes_point
  let radd := bsv_V3f_abs sqrtf rad
  let coeff := kernel.zeta_3D (radd / regularisation_radius)
  let divisor := 4 * CVTX_PI_F
    * regularisation_radius * regularisation_radius * regularisation_radius
  let coeff := coeff / divisor
  bsv_V3f_mult self.vorticity coeff

/-- The three accumulators `rx`, `ry`, `rz` of the many-to-single loops. -/
structure Accum3 (K : Type) where
  rx : K
  ry : K
  rz : K

/-- The step `rx += v.x[0]; ry += v.x[1]; rz += v.x[2]`. -/
def Accum3.add [LinearOrderedField K] (r : Accum3 K) (v : bsv_V3f K) : Accum3 K :=
  ⟨r.rx + v.x0, r.ry + v.x1, r.rz + v.x2⟩

/-- The function `cvtx_P3D_M2S_vel` (`P3D.cpp` lines 230-251).  The array of
`num_particles` sources is the list `array_start`. -/
def cvtx_P3D_M2S_vel [LinearOrderedField K] (sqrtf : K → K) (array_start : List (cvtx_P3D K))
    (mes_point : bsv_V3f K) (kernel : cvtx_VortFunc K) (regularisation_radius : K) :
    bsv_V3f K :=
  let recip_reg_rad := 1 / |regularisation_radius|
  let r := array_start.foldl
    (fun (r : Accum3 K) p =>
      r.add (P3D_vel_inner sqrtf p mes_point kernel recip_reg_rad)) ⟨0, 0, 0⟩
  let ret : bsv_V3f K := ⟨r.rx, r.ry, r.rz⟩
  bsv_V3f_mult ret (1 / (4 * CVTX_PI_F))

/-- The function `cvtx_P3D_M2S_dvort` (`P3D.cpp` lines 253-273). -/
def cvtx_P3D_M2S_dvort [LinearOrderedField K] (sqrtf : K → K) (array_start : List (cvtx_P3D K))
    (induced_particle : cvtx_P3D K) (kernel : cvtx_VortFunc K) (regularisation_radius : K) :
    bsv_V3f K :=
  let r := array_start.foldl
    (fun (r : Accum3 K) p => r.add
      (cvtx_P3D_S2S_dvort sqrtf p induced_particle kernel regularisation_radius)) ⟨0, 0, 0⟩
  ⟨r.rx, r.ry, r.rz⟩

/-- The function `cvtx_P3D_M2S_visc_dvort` (`P3D.cpp` lines 275-296).  The
result is `none` when the assertion of `cvtx_P3D_S2S_visc_dvort` fails in one
of the iterations. -/
def cvtx_P3D_M2S_visc_dvort [LinearOrderedField K] (sqrtf : K → K)
    (array_start : List (cvtx_P3D K)) (induced_particle : cvtx_P3D K)
    (kernel : cvtx_VortFunc K) (regularisation_radius kinematic_visc : K) :
    Option (bsv_V3f K) :=
  (array_start.foldl
    (fun (r : Option (Accum3 K)) p =>
      match r with
      | none => none
      | some r =>
        match cvtx_P3D_S2S_visc_dvort sqrtf p induced_particle kernel regularisation_radius
            kinematic_visc with
        | none => none
        | some dvort => some (r.add dvort))
    (some ⟨0, 0, 0⟩)).map fun r => ⟨r.rx, r.ry, r.rz⟩

/-- The test of `cvtx_P3D_M2S_vort` (`P3D.cpp` lines 312-313) that lets a source
contribute: its displacement `rad` from the measurement point is below the
cutoff in absolute value on every axis. -/
def vort_within_cutoff [LinearOrderedField K] (cutoff : K) (rad : bsv_V3f K) : Bool :=
  decide (|rad.x0| < cutoff ∧ |rad.x1| < cutoff ∧ |rad.x2| < cutoff)

/-- The function `cvtx_P3D_M2S_vort` (`P3D.cpp` lines 298-322).  The result is
`none` when the assertion `num_particles > 0` fails. -/
def cvtx_P3D_M2S_vort [LinearOrderedField K] (sqrtf : K → K) (array_start : List (cvtx_P3D K))
    (mes_point : bsv_V3f K) (kernel : cvtx_VortFunc K) (regularisation_radius : K) :
    Option (bsv_V3f K) :=
  let cutoff := 5 * regularisation_radius
  let rsigma := 1 / regularisation_radius
  if array_start.length = 0 then none
  else
    let sum := array_start.foldl
      (fun sum p =>
        let rad := bsv_V3f_minus p.coord mes_point
        if vort_within_cutoff cutoff rad then
          let radd := bsv_V3f_abs sqrtf rad
          let coeff := kernel.zeta_3D (radd * rsigma)
          bsv_V3f_plus (bsv_V3f_mult p.vorticity coeff) sum
        else sum)
      bsv_V3f_zero
    some (bsv_V3f_div sum
      (4 * CVTX_PI_F * regularisation_radius * regularisation_radius * regularisation_radius))

/-! ## The many-to-many operators and their dispatch -/

/-- The function `cpu_brute_force_P3D_M2M_vel` (`P3D.cpp` lines 324-341): the
entries `0, ..., num_mes - 1` of `result_array` after the loop. -/
def cpu_brute_force_P3D_M2M_vel [LinearOrderedField K] (sqrtf : K → K)
    (array_start : List (cvtx_P3D K)) (mes_start : List (bsv_V3f K))
    (kernel : cvtx_VortFunc K) (regularisation_radius : K) : List (bsv_V3f K) :=
  mes_start.map fun mes_point =>
    cvtx_P3D_M2S_vel sqrtf array_start mes_point kernel regularisation_radius

/-- The function `cvtx_P3D_M2M_vel` (`P3D.cpp` lines 343-366).  The flag
`CVTX_USING_OPENCL` says whether the build has the OpenCL backend; the entry
point `opencl_brute_force_P3D_M2M_vel` (`ocl_P3D.h`) is a parameter that
returns its status and the result array as it leaves it. -/
def cvtx_P3D_M2M_vel [LinearOrderedField K] (sqrtf : K → K) (CVTX_USING_OPENCL : Bool)
    (opencl_brute_force_P3D_M2M_vel :
      List (cvtx_P3D K) → List (bsv_V3f K) → cvtx_VortFunc K → K → Int × List (bsv_V3f K))
    (array_start : List (cvtx_P3D K)) (mes_start : List (bsv_V3f K))
    (kernel : cvtx_VortFunc K) (regularisation_radius : K) : List (bsv_V3f K) :=
  if CVTX_USING_OPENCL = true ∧
      ¬ ((array_start.length : Int) < 256
        ∨ (mes_start.length : Int) < 256
        ∨ kernel.cl_kernel_name_ext = ""
        ∨ (opencl_brute_force_P3D_M2M_vel array_start mes_start kernel
            regularisation_radius).1 ≠ 0) then
    (opencl_brute_force_P3D_M2M_vel array_start mes_start kernel regularisation_radius).2
  else
    cpu_brute_force_P3D_M2M_vel sqrtf array_start mes_start kernel regularisation_radius

/-- The function `cpu_brute_force_P3D_M2M_dvort` (`P3D.cpp` lines 368-385). -/
def cpu_brute_force_P3D_M2M_dvort [LinearOrderedField K] (sqrtf : K → K)
    (array_start induced_start : List (cvtx_P3D K))
    (kernel : cvtx_VortFunc K) (regularisation_radius : K) : List (bsv_V3f K) :=
  induced_start.map fun induced_particle =>
    cvtx_P3D_M2S_dvort sqrtf array_start induced_particle kernel regularisation_radius

/-- The function `cvtx_P3D_M2M_dvort` (`P3D.cpp` lines 387-410). -/
def cvtx_P3D_M2M_dvort [LinearOrderedField K] (sqrtf : K → K) (CVTX_USING_OPENCL : Bool)
    (opencl_brute_force_P3D_M2M_dvort :
      List (cvtx_P3D K) → List (cvtx_P3D K) → cvtx_VortFunc K → K → Int × List (bsv_V3f K))
    (array_start induced_start : List (cvtx_P3D K))
    (kernel : cvtx_VortFunc K) (regularisation_radius : K) : List (bsv_V3f K) :=
  if CVTX_USING_OPENCL = true ∧
      ¬ ((array_start.length : Int) < 256
        ∨ (induced_start.length : Int) < 256
        ∨ kernel.cl_kernel_name_ext = ""
        ∨ (opencl_brute_force_P3D_M2M_dvort array_start induced_start kernel
            regularisation_radius).1 ≠ 0) then
    (opencl_brute_force_P3D_M2M_dvort array_start induced_start kernel
      regularisation_radius).2
  else
    cpu_brute_force_P3D_M2M_dvort sqrtf array_start induced_start kernel
      regularisation_radius

/-- The function `cpu_brute_force_P3D_M2M_visc_dvort` (`P3D.cpp` lines
412-430); `none` when an assertion fails in one of the iterations. -/
def cpu_brute_force_P3D_M2M_visc_dvort [LinearOrderedField K] (sqrtf : K → K)
    (array_start induced_start : List (cvtx_P3D K))
    (kernel : cvtx_VortFunc K) (regularisation_radius kinematic_visc : K) :
    Option (List (bsv_V3f K)) :=
  induced_start.mapM fun induced_particle =>
    cvtx_P3D_M2S_visc_dvort sqrtf array_start induced_particle kernel regularisation_radius
      kinematic_visc

/-- The function `cvtx_P3D_M2M_visc_dvort` (`P3D.cpp` lines 432-456). -/
def cvtx_P3D_M2M_visc_dvort [LinearOrderedField K] (sqrtf : K → K) (CVTX_USING_OPENCL : Bool)
    (opencl_brute_force_P3D_M2M_visc_dvort :
      List (cvtx_P3D K) → List (cvtx_P3D K) → cvtx_VortFunc K → K → K
        → Int × List (bsv_V3f K))
    (array_start induced_start : List (cvtx_P3D K))
    (kernel : cvtx_VortFunc K) (regularisation_radius kinematic_visc : K) :
    Option (List (bsv_V3f K)) :=
  if CVTX_USING_OPENCL = true ∧
      ¬ ((array_start.length : Int) < 256
        ∨ (induced_start.length : Int) < 256
        ∨ kernel.cl_kernel_name_ext = ""
        ∨ (opencl_brute_force_P3D_M2M_visc_dvort array_start induced_start kernel
            regularisation_radius kinematic_visc).1 ≠ 0) then
    some (opencl_brute_force_P3D_M2M_visc_dvort array_start induced_start kernel
      regularisation_radius kinematic_visc).2
  else
    cpu_brute_force_P3D_M2M_visc_dvort sqrtf array_start induced_start kernel
      regularisation_radius kinematic_visc

/-- The function `cpu_brute_force_P3D_M2M_vort` (`P3D.cpp` lines 458-474);
`none` when the assertion of `cvtx_P3D_M2S_vort` fails in one of the
iterations. -/
def cpu_brute_force_P3D_M2M_vort [LinearOrderedField K] (sqrtf : K → K)
    (array_start : List (cvtx_P3D K)) (mes_start : List (bsv_V3f K))
    (kernel : cvtx_VortFunc K) (regularisation_radius : K) : Option (List (bsv_V3f K)) :=
  mes_start.mapM fun mes_point =>
    cvtx_P3D_M2S_vort sqrtf array_start mes_point kernel regularisation_radius

/-- The function `cvtx_P3D_M2M_vort` (`P3D.cpp` lines 476-498). -/
def cvtx_P3D_M2M_vort [LinearOrderedField K] (sqrtf : K → K) (CVTX_USING_OPENCL : Bool)
    (opencl_brute_force_P3D_M2M_vort :
      List (cvtx_P3D K) → List (bsv_V3f K) → cvtx_VortFunc K → K → Int × List (bsv_V3f K))
    (array_start : List (cvtx_P3D K)) (mes_start : List (bsv_V3f K))
    (kernel : cvtx_VortFunc K) (regularisation_radius : K) : Option (List (bsv_V3f K)) :=
  if CVTX_USING_OPENCL = true ∧
      ¬ ((array_start.length : Int) < 256
        ∨ (mes_start.length : Int) < 256
        ∨ kernel.cl_kernel_name_ext = ""
        ∨ (opencl_brute_force_P3D_M2M_vort array_start mes_start kernel
            regularisation_radius).1 ≠ 0) then
    some (opencl_brute_force_P3D_M2M_vort array_start mes_start kernel
      regularisation_radius).2
  else
    cpu_brute_force_P3D_M2M_vort sqrtf array_start mes_start kernel regularisation_radius

/-! ## Relaxation (`cvtx_P3D_pedrizzetti_relaxation`) -/

/-- The new vorticity `nvort` that an iteration of the update loop computes from
the old vorticity `ovort` and the field `omega` (`P3D.cpp` lines 695-700). -/
def relax_nvort [LinearOrderedField K] (sqrtf : K → K) (fdt : K) (ovort omega : bsv_V3f K) :
    bsv_V3f K :=
  let tmp := 1 - fdt
  let absomega := bsv_V3f_abs sqrtf omega
  let coeff := bsv_V3f_abs sqrtf ovort / absomega
  let nvort := bsv_V3f_mult ovort tmp
  let nvort := bsv_V3f_plus nvort (bsv_V3f_mult omega (coeff * fdt))
  if absomega ≠ 0 then nvort else bsv_V3f_zero

/-- One iteration `i` of the update loop (`P3D.cpp` lines 692-702):
`input_array_start[i]->vorticity = nvort`. -/
def relax_step [LinearOrderedField K] (sqrtf : K → K) (fdt : K) (omegas : List (bsv_V3f K))
    (arr : List (cvtx_P3D K)) (i : Nat) : List (cvtx_P3D K) :=
  arr.set i { arr.getD i default with
    vorticity := relax_nvort sqrtf fdt (arr.getD i default).vorticity
      (omegas.getD i default) }

/-- The function `cvtx_P3D_pedrizzetti_relaxation` (`P3D.cpp` lines 669-707).
The particles that `input_array_start` points to are the list `input` (no two
pointers are the same particle); the result is the list after the call, `none`
when an assertion fails inside `cvtx_P3D_M2M_vort`. -/
def cvtx_P3D_pedrizzetti_relaxation [LinearOrderedField K] (sqrtf : K → K)
    (CVTX_USING_OPENCL : Bool)
    (opencl_brute_force_P3D_M2M_vort :
      List (cvtx_P3D K) → List (bsv_V3f K) → cvtx_VortFunc K → K → Int × List (bsv_V3f K))
    (input : List (cvtx_P3D K)) (fdt : K) (kernel : cvtx_VortFunc K)
    (regularisation_radius : K) : Option (List (cvtx_P3D K)) :=
  let mes_posns := input.map fun p => p.coord
  match cvtx_P3D_M2M_vort sqrtf CVTX_USING_OPENCL opencl_brute_force_P3D_M2M_vort input
      mes_posns kernel regularisation_radius with
  | none => none
  | some omegas =>
    some ((List.range input.length).foldl (relax_step sqrtf fdt omegas) input)

/-! ## Removal of weak particles (`cvtx_remove_particles_under_str_threshold`) -/

/-- The variables of `cvtx_remove_particles_under_str_threshold` that its
first loop changes: the array, the write cursor `j` and the deficit. -/
structure CullState (K : Type) where
  io_arr : List (cvtx_P3D K)
  j : Nat
  vorticity_deficit : bsv_V3f K

/-- One iteration `i` of the first loop (`P3D.cpp` lines 648-657). -/
def cull_step [LinearOrderedField K] (strs : List K) (min_keepable_str : K)
    (max_keepable : Int) (s : CullState K) (i : Nat) : CullState K :=
  if strs.getD i 0 > min_keepable_str ∧ (i : Int) < max_keepable then
    { s with io_arr := s.io_arr.set s.j (s.io_arr.getD i default), j := s.j + 1 }
  else
    { s with vorticity_deficit :=
        bsv_V3f_plus (s.io_arr.getD i default).vorticity s.vorticity_deficit }

/-- One iteration `i` of the second loop (`P3D.cpp` lines 661-663). -/
def cull_add_deficit [LinearOrderedField K] (d : bsv_V3f K)
    (arr : List (cvtx_P3D K)) (i : Nat) : List (cvtx_P3D K) :=
  arr.set i { arr.getD i default with
    vorticity := bsv_V3f_plus (arr.getD i default).vorticity d }

/-- The function `cvtx_remove_particles_under_str_threshold`
(`P3D.cpp` lines 636-665).  Returns `n_output_particles` and the array
`io_arr` as the call leaves it.  When no particle is kept the C code divides
the deficit by zero; the second loop then has no iteration and the quotient is
added to no element. -/
def cvtx_remove_particles_under_str_threshold [LinearOrderedField K]
    (io_arr : List (cvtx_P3D K)) (strs : List K) (n_inpt_partices : Int)
    (min_keepable_str : K) (max_keepable : Int) : Int × List (cvtx_P3D K) :=
  let s := (List.range n_inpt_partices.toNat).foldl
    (cull_step strs min_keepable_str max_keepable) ⟨io_arr, 0, bsv_V3f_zero⟩
  let n_output_particles := s.j
  let vorticity_deficit := bsv_V3f_div s.vorticity_deficit (n_output_particles : K)
  ((n_output_particles : Int),
    (List.range n_output_particles).foldl (cull_add_deficit vorticity_deficit) s.io_arr)

/-- The positions below `n` that the first loop keeps, in increasing order. -/
def cull_kept [LinearOrderedField K] (strs : List K) (min_keepable_str : K)
    (max_keepable : Int) (n : Nat) : List Nat :=
  (List.range n).filter
    (fun i => decide (strs.getD i 0 > min_keepable_str ∧ (i : Int) < max_keepable))

/-- The positions below `n` that the first loop removes, in increasing order. -/
def cull_removed [LinearOrderedField K] (strs : List K) (min_keepable_str : K)
    (max_keepable : Int) (n : Nat) : List Nat :=
  (List.range n).filter
    (fun i => !decide (strs.getD i 0 > min_keepable_str ∧ (i : Int) < max_keepable))

/-- The state of the first loop after its first `i` iterations. -/
def cull_after [LinearOrderedField K] (io_arr : List (cvtx_P3D K)) (strs : List K)
    (min_keepable_str : K) (max_keepable : Int) (i : Nat) : CullState K :=
  (List.range i).foldl (cull_step strs min_keepable_str max_keepable)
    ⟨io_arr, 0, bsv_V3f_zero⟩

/-- What the second loop does to one element: `io_arr[i].vorticity` becomes
`io_arr[i].vorticity + vorticity_deficit`; `coord` and `volume` stay. -/
def add_deficit [LinearOrderedField K] (d : bsv_V3f K) (p : cvtx_P3D K) : cvtx_P3D K :=
  { p with vorticity := bsv_V3f_plus p.vorticity d }

/-! ## Grid keys and the grid accumulator -/

/-- The C library function `roundf`: the nearest integer, halves rounded away
from zero. -/
def roundf [LinearOrderedField K] [FloorRing K] (x : K) : Int :=
  if 0 ≤ x then ⌊x + 1 / 2⌋ else ⌈x - 1 / 2⌉

/-- Modelled from the spec: the lattice key `UIntKey96` (`UIntKey96.h`), three
integer grid indices.  The C type packs three unsigned 32-bit indices; the
indices here are unbounded integers. -/
structure UIntKey96 where
  kx : Int
  ky : Int
  kz : Int
deriving DecidableEq

/-- Modelled from the spec: `UIntKey96::nearest_key_min`, the key of the cell
whose centre is closest to `pos`, `round((pos - origin) / cellSize)` on every
axis; the caller passes the reciprocal of the cell size. -/
def UIntKey96.nearest_key_min [LinearOrderedField K] [FloorRing K] (pos : bsv_V3f K)
    (recip_grid_density : K) (min : bsv_V3f K) : UIntKey96 :=
  ⟨roundf ((pos.x0 - min.x0) * recip_grid_density),
   roundf ((pos.x1 - min.x1) * recip_grid_density),
   roundf ((pos.x2 - min.x2) * recip_grid_density)⟩

/-- Modelled from the spec: `UIntKey96::to_position_min`, the position
`origin + key * cellSize` of the centre of a cell. -/
def UIntKey96.to_position_min [LinearOrderedField K] (key : UIntKey96) (grid_density : K)
    (min : bsv_V3f K) : bsv_V3f K :=
  ⟨min.x0 + (key.kx : K) * grid_density, min.x1 + (key.ky : K) * grid_density,
   min.x2 + (key.kz : K) * grid_density⟩

/-- The offsets `-radius, ..., radius` along one axis. -/
def UIntKey96.axis_offsets (radius : Int) : List Int :=
  (List.range (2 * radius + 1).toNat).map (fun i => (i : Int) - radius)

/-- Modelled from the spec: `UIntKey96::nearby_keys`, every key whose three
components each differ from those of `key` by at most `radius`, a cube of
`(2 * radius + 1) ^ 3` keys (`UIntKey96::num_nearby_keys`) in a fixed order. -/
def UIntKey96.nearby_keys (key : UIntKey96) (radius : Int) : List UIntKey96 :=
  (UIntKey96.axis_offsets radius).flatMap fun dx =>
    (UIntKey96.axis_offsets radius).flatMap fun dy =>
      (UIntKey96.axis_offsets radius).map fun dz =>
        ⟨key.kx + dx, key.ky + dy, key.kz + dz⟩

/-- Modelled from the spec: the grid accumulator `GridParticleOcttree`
(`GridParticleOcttree.h`), a mapping from key to accumulated vorticity, held as
a list of entries with pairwise different keys. -/
structure GridParticleOcttree (K : Type) where
  entries : List (UIntKey96 × bsv_V3f K)

/-- Adds `str` to the value stored under `key`, creating the entry if needed. -/
def GridParticleOcttree.add_entry [LinearOrderedField K] :
    List (UIntKey96 × bsv_V3f K) → UIntKey96 → bsv_V3f K → List (UIntKey96 × bsv_V3f K)
  | [], key, str => [(key, str)]
  | (k, v) :: rest, key, str =>
    if k = key then (k, bsv_V3f_plus v str) :: rest
    else (k, v) :: GridParticleOcttree.add_entry rest key str

/-- Modelled from the spec: `GridParticleOcttree::add_particles`, which adds
`strs[j]` into the accumulator at `keys[j]` for every `j`. -/
def GridParticleOcttree.add_particles [LinearOrderedField K] (t : GridParticleOcttree K)
    (keys : List UIntKey96) (strs : List (bsv_V3f K)) : GridParticleOcttree K :=
  ⟨(keys.zip strs).foldl (fun e ks => GridParticleOcttree.add_entry e ks.1 ks.2) t.entries⟩

/-- Modelled from the spec: `GridParticleOcttree::merge_in`, key-wise vector
summation (union of the key sets, entry-wise addition). -/
def GridParticleOcttree.merge_in [LinearOrderedField K] (t other : GridParticleOcttree K) :
    GridParticleOcttree K :=
  ⟨other.entries.foldl (fun e ks => GridParticleOcttree.add_entry e ks.1 ks.2) t.entries⟩

/-- Modelled from the spec: `GridParticleOcttree::number_of_particles`, the
number of keys that hold a value. -/
def GridParticleOcttree.number_of_particles (t : GridParticleOcttree K) : Nat :=
  t.entries.length

/-- Modelled from the spec: `GridParticleOcttree::flatten_tree`, the keys and
the accumulated vorticities as parallel arrays. -/
def GridParticleOcttree.flatten_tree (t : GridParticleOcttree K) :
    List UIntKey96 × List (bsv_V3f K) :=
  (t.entries.map Prod.fst, t.entries.map Prod.snd)

/-- The sum over all keys of the accumulated vorticity. -/
def GridParticleOcttree.total_vorticity [LinearOrderedField K] (t : GridParticleOcttree K) :
    bsv_V3f K :=
  (t.entries.map Prod.snd).sum

/-! ## Redistribution on a grid (`cvtx_P3D_redistribute_on_grid`) -/

/-- The redistribution kernel `cvtx_RedistFunc` of `libcvtx.h`: the
one-dimensional weighting function and its support radius in cells. -/
structure cvtx_RedistFunc (K : Type) where
  func : K → K
  radius : K

/-- Modelled from the spec: `minmax_xyz_posn` (`redistribution_helper_funcs.h`),
of which the minimum corner of the particle positions is used. -/
def minmax_xyz_posn [LinearOrderedField K] (input : List (cvtx_P3D K)) : bsv_V3f K :=
  match input with
  | [] => bsv_V3f_zero
  | p :: rest => rest.foldl
      (fun m q => ⟨min m.x0 q.coord.x0, min m.x1 q.coord.x1, min m.x2 q.coord.x2⟩) p.coord

/-- Modelled from the spec: `mean_xyz_posn` (`redistribution_helper_funcs.h`),
the mean of the particle positions. -/
def mean_xyz_posn [LinearOrderedField K] (input : List (cvtx_P3D K)) : bsv_V3f K :=
  bsv_V3f_div ((input.map (fun p => p.coord)).sum) (input.length : K)

/-- Modelled from the spec: the mean returned by `farray_info`
(`array_methods.h`) through its third argument (for an empty array the C code
divides by zero). -/
def farray_info_mean [LinearOrderedField K] (arr : List K) : K :=
  arr.sum / (arr.length : K)

/-- The grid origin computed at `P3D.cpp` lines 538-548. -/
def grid_origin [LinearOrderedField K] [FloorRing K] (input : List (cvtx_P3D K))
    (grid_radius : Int) (grid_density : K) : bsv_V3f K :=
  let min0 := minmax_xyz_posn input
  let mean := mean_xyz_posn input
  let min1 := bsv_V3f_minus min0
    (bsv_V3f_mult ⟨1, 1, 1⟩ ((grid_radius : K) * grid_density))
  let dcorner := bsv_V3f_div (bsv_V3f_minus mean min1) grid_density
  let dcorner : bsv_V3f K :=
    ⟨((roundf dcorner.x0 : Int) : K) + 5, ((roundf dcorner.x1 : Int) : K) + 5,
     ((roundf dcorner.x2 : Int) : K) + 5⟩
  bsv_V3f_minus mean (bsv_V3f_mult dcorner grid_density)

/-- The strengths written to `str_buffer` for one particle (`P3D.cpp` lines
570-580): for every nearby key the particle's vorticity times the product of
the three one-dimensional weights. -/
def deposit_strs [LinearOrderedField K] (redistributor : cvtx_RedistFunc K)
    (grid_density recip_grid_density : K) (min : bsv_V3f K) (p : cvtx_P3D K)
    (key_buffer : List UIntKey96) : List (bsv_V3f K) :=
  key_buffer.map fun kj =>
    let npos := kj.to_position_min grid_density min
    let dx := bsv_V3f_minus p.coord npos
    let U := |dx.x0 * recip_grid_density|
    let W := |dx.x1 * recip_grid_density|
    let V := |dx.x2 * recip_grid_density|
    let vortfrac := redistributor.func U * redistributor.func W * redistributor.func V
    bsv_V3f_mult p.vorticity vortfrac

/-- One iteration of the particle loop of a worker (`P3D.cpp` lines 564-582). -/
def deposit_particle [LinearOrderedField K] [FloorRing K] (redistributor : cvtx_RedistFunc K)
    (grid_radius : Int) (grid_density recip_grid_density : K) (min : bsv_V3f K)
    (tree : GridParticleOcttree K) (p : cvtx_P3D K) : GridParticleOcttree K :=
  let key := UIntKey96.nearest_key_min p.coord recip_grid_density min
  let key_buffer := key.nearby_keys grid_radius
  tree.add_particles key_buffer
    (deposit_strs redistributor grid_density recip_grid_density min p key_buffer)

/-- The first particle of worker `threadid` (`P3D.cpp` line 561). -/
def shard_istart (n_input_particles nthreads threadid : Nat) : Nat :=
  threadid * (n_input_particles / nthreads)

/-- One past the last particle of worker `threadid` (`P3D.cpp` lines 562-563). -/
def shard_iend (n_input_particles nthreads threadid : Nat) : Nat :=
  if threadid = nthreads - 1 then n_input_particles
  else (threadid + 1) * (n_input_particles / nthreads)

/-- The particles that worker `threadid` deposits: positions `istart` to
`iend - 1` of the input array. -/
def shard_slice {α : Type} (input : List α) (nthreads threadid : Nat) : List α :=
  (input.drop (shard_istart input.length nthreads threadid)).take
    (shard_iend input.length nthreads threadid
      - shard_istart input.length nthreads threadid)

/-- The accumulator `ptree[threadid]` after the parallel loop: worker `threadid`
deposits the particles `istart, ..., iend - 1` into its own accumulator. -/
def shard_tree [LinearOrderedField K] [FloorRing K] (redistributor : cvtx_RedistFunc K)
    (grid_radius : Int) (grid_density recip_grid_density : K) (min : bsv_V3f K)
    (input : List (cvtx_P3D K)) (nthreads threadid : Nat) : GridParticleOcttree K :=
  (shard_slice input nthreads threadid).foldl
    (deposit_particle redistributor grid_radius grid_density recip_grid_density min) ⟨[]⟩

/-- The accumulator `ptree[0]` after the merge loop (`P3D.cpp` lines 552-588):
the accumulators of the workers `1, ..., nthreads - 1` merged into that of
worker 0. -/
def deposit_and_merge [LinearOrderedField K] [FloorRing K] (redistributor : cvtx_RedistFunc K)
    (grid_density : K) (input : List (cvtx_P3D K)) (nthreads : Nat) : GridParticleOcttree K :=
  let recip_grid_density := 1 / grid_density
  let grid_radius := roundf redistributor.radius
  let min := grid_origin input grid_radius grid_density
  let ptree := (List.range nthreads).map
    (shard_tree redistributor grid_radius grid_density recip_grid_density min input nthreads)
  match ptree with
  | [] => ⟨[]⟩
  | t0 :: rest => rest.foldl GridParticleOcttree.merge_in t0

/-- The function `cvtx_P3D_redistribute_on_grid` (`P3D.cpp` lines 509-634).
The input array is the list `input` and `n_input_particles` its length;
`output_nonnull` says whether `output_particles` is a buffer or `NULL`.  The
result is `none` when an assertion fails, otherwise the returned count and the
particles written to the output buffer (none for `NULL`).  The number of
workers and `get_strength_threshold` (`array_methods.h`) are parameters. -/
def cvtx_P3D_redistribute_on_grid [LinearOrderedField K] [FloorRing K] (sqrtf : K → K)
    (get_strength_threshold : List K → Int → Int → K) (nthreads : Nat)
    (input : List (cvtx_P3D K)) (output_nonnull : Bool) (max_output_particles : Int)
    (redistributor : cvtx_RedistFunc K) (grid_density negligible_vort : K) :
    Option (Int × List (cvtx_P3D K)) :=
  if ¬ (0 ≤ max_output_particles ∧ 0 < grid_density ∧ 0 ≤ negligible_vort
      ∧ negligible_vort < 1) then none
  else
    let grid_radius := roundf redistributor.radius
    let min := grid_origin input grid_radius grid_density
    let tree := deposit_and_merge redistributor grid_density input nthreads
    let n_created_particles : Int := tree.number_of_particles
    let flat := tree.flatten_tree
    let np_vol := grid_density * grid_density * grid_density
    let new_particles : List (cvtx_P3D K) := (flat.1.zip flat.2).map fun ks =>
      { volume := np_vol, vorticity := ks.2, coord := ks.1.to_position_min grid_density min }
    let strengths := new_particles.map (fun p => bsv_V3f_abs sqrtf p.vorticity)
    let min_keepable_particle := farray_info_mean strengths * negligible_vort
    let r1 := cvtx_remove_particles_under_str_threshold new_particles strengths
      n_created_particles min_keepable_particle n_created_particles
    let n_created_particles := r1.1
    let new_particles := r1.2.take n_created_particles.toNat
    let strengths := new_particles.map (fun p => bsv_V3f_abs sqrtf p.vorticity)
    if output_nonnull then
      if n_created_particles > max_output_particles then
        let min_keepable_particle :=
          get_strength_threshold strengths n_created_particles max_output_particles
        let r2 := cvtx_remove_particles_under_str_threshold new_particles strengths
          n_created_particles min_keepable_particle max_output_particles
        some (r2.1, r2.2.take r2.1.toNat)
      else some (n_created_particles, new_particles.take n_created_particles.toNat)
    else some (n_created_particles, [])

/-- The sum, over the keys near the nearest key of `pos`, of the product of the
three one-dimensional weights: the fraction of a particle at `pos` that the
deposit loop hands out. -/
def deposit_weight_sum [LinearOrderedField K] [FloorRing K] (redistributor : cvtx_RedistFunc K)
    (grid_radius : Int) (grid_density recip_grid_density : K) (min : bsv_V3f K)
    (pos : bsv_V3f K) : K :=
  (((UIntKey96.nearest_key_min pos recip_grid_density min).nearby_keys grid_radius).map
    fun kj =>
      redistributor.func |(pos.x0 - (kj.to_position_min grid_density min).x0)
          * recip_grid_density|
        * redistributor.func |(pos.x1 - (kj.to_position_min grid_density min).x1)
          * recip_grid_density|
        * redistributor.func |(pos.x2 - (kj.to_position_min grid_density min).x2)
          * recip_grid_density|).sum

/-! ## Sample data over `ℚ` -/

/-- A particle at the origin with unit volume and the given vorticity. -/
def sample_particle (a b c : ℚ) : cvtx_P3D ℚ := ⟨⟨0, 0, 0⟩, ⟨a, b, c⟩, 1⟩

/-- Five particles of strengths 1, 2, 3, 4, 100. -/
def sample_five : List (cvtx_P3D ℚ) :=
  [sample_particle 1 0 0, sample_particle 0 2 0, sample_particle 0 0 3,
   sample_particle 4 0 0, sample_particle 100 0 0]

/-- The strengths of `sample_five`. -/
def sample_five_strs : List ℚ := [1, 2, 3, 4, 100]

/-- Ten particles of strengths 1, 2, ..., 10. -/
def sample_ten : List (cvtx_P3D ℚ) :=
  [sample_particle 1 0 0, sample_particle 2 0 0, sample_particle 3 0 0,
   sample_particle 4 0 0, sample_particle 5 0 0, sample_particle 6 0 0,
   sample_particle 7 0 0, sample_particle 8 0 0, sample_particle 9 0 0,
   sample_particle 10 0 0]

/-- The strengths of `sample_ten`. -/
def sample_ten_strs : List ℚ := [1, 2, 3, 4, 5, 6, 7, 8, 9, 10]

/-- A redistribution kernel whose weighting function is the constant 1 and
whose support radius is 0: every particle goes to its nearest cell, whole. -/
def sample_redist_nearest : cvtx_RedistFunc ℚ := ⟨fun _ => 1, 0⟩

/-- A redistribution kernel whose weighting function is the constant 2 and
whose support radius is 0. -/
def sample_redist_double : cvtx_RedistFunc ℚ := ⟨fun _ => 2, 0⟩

/-- A square root on `ℚ` that is exact on the squares of rationals. -/
def sample_sqrtf (x : ℚ) : ℚ := (Nat.sqrt x.num.toNat : ℚ) / (Nat.sqrt x.den : ℚ)

/-- A kernel all of whose functions are the constant 1, without OpenCL name. -/
def sample_kernel : cvtx_VortFunc ℚ :=
  ⟨fun _ => 1, fun _ => (1, 1), some (fun _ => 1), fun _ => 1, ""⟩

/-- A particle of vorticity `(1, 0, 0)` and unit volume at `(x, 0, 0)`. -/
def sample_particle_at (x : ℚ) : cvtx_P3D ℚ := ⟨⟨x, 0, 0⟩, ⟨1, 0, 0⟩, 1⟩

/-- The many-to-single vorticity reconstruction as C8 words it: a source is
skipped if and only if the absolute value of its displacement from the target
exceeds `5 * sigma` on at least one axis; every other source contributes
`vorticity * zeta(|rad| / sigma)`, and the total is divided by
`4 * pi * sigma ^ 3`. -/
def M2S_vort_as_claimed [LinearOrderedField K] (sqrtf : K → K) (sources : List (cvtx_P3D K))
    (mes_point : bsv_V3f K) (kernel : cvtx_VortFunc K) (sigma : K) : bsv_V3f K :=
  bsv_V3f_div
    ((sources.filter (fun p => decide (¬ (|p.coord.x0 - mes_point.x0| > 5 * sigma
        ∨ |p.coord.x1 - mes_point.x1| > 5 * sigma
        ∨ |p.coord.x2 - mes_point.x2| > 5 * sigma)))).map
      (fun p => bsv_V3f_mult p.vorticity
        (kernel.zeta_3D (bsv_V3f_abs sqrtf (bsv_V3f_minus p.coord mes_point) / sigma)))).sum
    (4 * CVTX_PI_F * sigma ^ 3)

/-- An OpenCL entry point that reports success and writes nothing. -/
def sample_opencl_points :
    List (cvtx_P3D ℚ) → List (bsv_V3f ℚ) → cvtx_VortFunc ℚ → ℚ → Int × List (bsv_V3f ℚ) :=
  fun _ _ _ _ => (0, [])

/-- An OpenCL entry point, for particle targets, that reports success and
writes nothing. -/
def sample_opencl_particles :
    List (cvtx_P3D ℚ) → List (cvtx_P3D ℚ) → cvtx_VortFunc ℚ → ℚ → Int × List (bsv_V3f ℚ) :=
  fun _ _ _ _ => (0, [])

/-- An OpenCL entry point for the viscous operator that reports success and
writes nothing. -/
def sample_opencl_visc :
    List (cvtx_P3D ℚ) → List (cvtx_P3D ℚ) → cvtx_VortFunc ℚ → ℚ → ℚ
      → Int × List (bsv_V3f ℚ) :=
  fun _ _ _ _ _ => (0, [])

/-- A kernel whose `zeta_3D` is the constant `4 * CVTX_PI_F`, so that with
`sigma = 1` a source inside the cutoff contributes its own vorticity. -/
def sample_kernel_field : cvtx_VortFunc ℚ :=
  ⟨fun _ => 1, fun _ => (1, 1), some (fun _ => 1), fun _ => 4 * CVTX_PI_F, ""⟩

/-! ## Theorems -/

@[ext]
theorem bsv_V3f_ext {a b : bsv_V3f K} (h0 : a.x0 = b.x0) (h1 : a.x1 = b.x1)
    (h2 : a.x2 = b.x2) : a = b := by
  cases a; cases b; simp_all

section VectorLemmas

variable [LinearOrderedField K]

@[simp] theorem bsv_V3f_plus_eq (a b : bsv_V3f K) : bsv_V3f_plus a b = a + b := rfl

theorem bsv_V3f_mk_add_mk (a b c d e f : K) :
    (⟨a, b, c⟩ : bsv_V3f K) + ⟨d, e, f⟩ = ⟨a + d, b + e, c + f⟩ := rfl

@[simp] theorem bsv_V3f_zero_eq : (bsv_V3f_zero : bsv_V3f K) = 0 := rfl
@[simp] theorem bsv_V3f_add_x0 (a b : bsv_V3f K) : (a + b).x0 = a.x0 + b.x0 := rfl
@[simp] theorem bsv_V3f_add_x1 (a b : bsv_V3f K) : (a + b).x1 = a.x1 + b.x1 := rfl
@[simp] theorem bsv_V3f_add_x2 (a b : bsv_V3f K) : (a + b).x2 = a.x2 + b.x2 := rfl
@[simp] theorem bsv_V3f_zero_x0 : (0 : bsv_V3f K).x0 = 0 := rfl
@[simp] theorem bsv_V3f_zero_x1 : (0 : bsv_V3f K).x1 = 0 := rfl
@[simp] theorem bsv_V3f_zero_x2 : (0 : bsv_V3f K).x2 = 0 := rfl
@[simp] theorem bsv_V3f_neg_x0 (a : bsv_V3f K) : (-a).x0 = -a.x0 := rfl
@[simp] theorem bsv_V3f_neg_x1 (a : bsv_V3f K) : (-a).x1 = -a.x1 := rfl
@[simp] theorem bsv_V3f_neg_x2 (a : bsv_V3f K) : (-a).x2 = -a.x2 := rfl

end VectorLemmas

section CullLemmas

variable [LinearOrderedField K]

theorem cull_after_succ (io_arr : List (cvtx_P3D K)) (strs : List K) (thr : K)
    (maxk : Int) (i : Nat) :
    cull_after io_arr strs thr maxk (i + 1)
      = cull_step strs thr maxk (cull_after io_arr strs thr maxk i) i := by
  simp [cull_after, List.range_succ, List.foldl_append]

theorem filter_single (p : Nat → Bool) (i : Nat) :
    List.filter p [i] = if p i then [i] else [] := by
  cases hp : p i <;> simp [List.filter, hp]

theorem cull_kept_succ (strs : List K) (thr : K) (maxk : Int) (i : Nat) :
    cull_kept strs thr maxk (i + 1)
      = cull_kept strs thr maxk i
        ++ (if strs.getD i 0 > thr ∧ (i : Int) < maxk then [i] else []) := by
  unfold cull_kept
  rw [List.range_succ, List.filter_append, filter_single]
  by_cases h : strs.getD i 0 > thr ∧ (i : Int) < maxk
  · rw [if_pos h, if_pos (decide_eq_true h)]
  · rw [if_neg h, if_neg (by rw [decide_eq_false h]; decide)]

theorem cull_removed_succ (strs : List K) (thr : K) (maxk : Int) (i : Nat) :
    cull_removed strs thr maxk (i + 1)
      = cull_removed strs thr maxk i
        ++ (if strs.getD i 0 > thr ∧ (i : Int) < maxk then [] else [i]) := by
  unfold cull_removed
  rw [List.range_succ, List.filter_append, filter_single]
  by_cases h : strs.getD i 0 > thr ∧ (i : Int) < maxk
  · rw [if_pos h, if_neg (by rw [decide_eq_true h]; decide)]
  · rw [if_neg h, if_pos (by rw [decide_eq_false h]; decide)]

theorem cull_kept_length_le (strs : List K) (thr : K) (maxk : Int) (i : Nat) :
    (cull_kept strs thr maxk i).length ≤ i := by
  unfold cull_kept
  calc _ ≤ (List.range i).length := List.length_filter_le _ _
    _ = i := List.length_range i

theorem take_set_self {α : Type} (l : List α) (j : Nat) (a : α) :
    (l.set j a).take j = l.take j := by
  induction l generalizing j with
  | nil => simp
  | cons x xs ih => cases j <;> simp [ih]

theorem getD_of_drop_eq {α : Type} (l m : List α) (i : Nat) (d : α)
    (h : l.drop i = m.drop i) : l.getD i d = m.getD i d := by
  have h1 := congrArg (fun t => t[0]?) h
  simp only [List.getElem?_drop, add_zero] at h1
  simp [List.getD_eq_getElem?_getD, h1]

/-- Invariant of the first loop: the cursor counts the kept positions, the kept
elements are compacted to the front in order, the elements from `i` on are
untouched, and the deficit is the sum of the removed vorticities. -/
theorem cull_after_inv (io_arr : List (cvtx_P3D K)) (strs : List K) (thr : K)
    (maxk : Int) (i : Nat) (hi : i ≤ io_arr.length) :
    (cull_after io_arr strs thr maxk i).io_arr.length = io_arr.length
    ∧ (cull_after io_arr strs thr maxk i).j = (cull_kept strs thr maxk i).length
    ∧ (cull_after io_arr strs thr maxk i).io_arr.take (cull_after io_arr strs thr maxk i).j
        = (cull_kept strs thr maxk i).map (fun k => io_arr.getD k default)
    ∧ (cull_after io_arr strs thr maxk i).io_arr.drop i = io_arr.drop i
    ∧ (cull_after io_arr strs thr maxk i).vorticity_deficit
        = ((cull_removed strs thr maxk i).map
            (fun k => (io_arr.getD k default).vorticity)).sum := by
  induction i with
  | zero => simp [cull_after, cull_kept, cull_removed]
  | succ i ih =>
    obtain ⟨hlen, hj, htake, hdrop, hdef⟩ := ih (Nat.le_of_succ_le hi)
    have hilt : i < io_arr.length := hi
    have hjle : (cull_after io_arr strs thr maxk i).j ≤ i := by
      rw [hj]; exact cull_kept_length_le strs thr maxk i
    have hget := getD_of_drop_eq _ _ i default hdrop
    have hdrop1 : List.drop (i + 1) (cull_after io_arr strs thr maxk i).io_arr
        = List.drop (i + 1) io_arr := by
      rw [← List.drop_drop 1 i, ← List.drop_drop 1 i, hdrop]
    rw [cull_after_succ, cull_kept_succ, cull_removed_succ]
    generalize cull_after io_arr strs thr maxk i = s at *
    by_cases h : strs.getD i 0 > thr ∧ (i : Int) < maxk
    · simp only [cull_step, if_pos h]
      refine ⟨by simpa using hlen, by simp [hj], ?_, ?_, ?_⟩
      · rw [List.take_succ, take_set_self, htake, hget, List.map_append]
        have hjl : s.j < s.io_arr.length := by omega
        simp [List.getElem?_set, hjl]
      · rw [List.drop_set_of_lt _ _ (by omega), hdrop1]
      · simpa using hdef
    · simp only [cull_step, if_neg h]
      refine ⟨hlen, by simpa using hj, by simpa using htake, hdrop1, ?_⟩
      rw [hdef, hget, List.map_append, List.sum_append]
      simp [add_comm]

theorem cull_add_deficit_fold (d : bsv_V3f K) (arr : List (cvtx_P3D K)) (m : Nat)
    (hm : m ≤ arr.length) :
    (List.range m).foldl (cull_add_deficit d) arr
      = (arr.take m).map (add_deficit d) ++ arr.drop m := by
  induction m with
  | zero => simp
  | succ m ih =>
    have hlt : m < arr.length := hm
    rw [List.range_succ, List.foldl_append, ih (Nat.le_of_succ_le hm)]
    have hlen : ((arr.take m).map (add_deficit d)).length = m := by
      simp; omega
    simp only [List.foldl_cons, List.foldl_nil, cull_add_deficit]
    have hg : (List.map (add_deficit d) (List.take m arr) ++ List.drop m arr).getD m default
        = arr[m] := by
      rw [List.getD_eq_getElem?_getD, List.getElem?_append_right (by omega), hlen]
      simp [List.getElem?_drop, List.getElem?_eq_getElem hlt]
    rw [hg, List.set_append_right _ _ (by omega), hlen, Nat.sub_self,
      List.drop_eq_getElem_cons hlt, List.set_cons_zero]
    have ht : List.take (m + 1) arr = List.take m arr ++ [arr[m]] := by
      rw [List.take_succ, List.getElem?_eq_getElem hlt]; rfl
    rw [ht, List.map_append, List.append_assoc]
    rfl

/-- Full description of `cvtx_remove_particles_under_str_threshold` on an array
that holds at least `n_inpt_partices` elements. -/
theorem cull_result (io_arr : List (cvtx_P3D K)) (strs : List K) (n : Int) (thr : K)
    (maxk : Int) (hn : n.toNat ≤ io_arr.length) :
    (cvtx_remove_particles_under_str_threshold io_arr strs n thr maxk).1
        = ((cull_kept strs thr maxk n.toNat).length : Int)
    ∧ (cvtx_remove_particles_under_str_threshold io_arr strs n thr maxk).2.length
        = io_arr.length
    ∧ (cvtx_remove_particles_under_str_threshold io_arr strs n thr maxk).2.take
          (cull_kept strs thr maxk n.toNat).length
        = (cull_kept strs thr maxk n.toNat).map (fun k =>
            add_deficit
              (bsv_V3f_div
                ((cull_removed strs thr maxk n.toNat).map
                  (fun k => (io_arr.getD k default).vorticity)).sum
                ((cull_kept strs thr maxk n.toNat).length : K))
              (io_arr.getD k default)) := by
  obtain ⟨hlen, hj, htake, -, hdef⟩ := cull_after_inv io_arr strs thr maxk n.toNat hn
  have hjle : (cull_after io_arr strs thr maxk n.toNat).j
      ≤ (cull_after io_arr strs thr maxk n.toNat).io_arr.length := by
    rw [hj, hlen]; exact le_trans (cull_kept_length_le strs thr maxk _) hn
  have hfold := cull_add_deficit_fold
    (bsv_V3f_div (cull_after io_arr strs thr maxk n.toNat).vorticity_deficit
      ((cull_after io_arr strs thr maxk n.toNat).j : K))
    (cull_after io_arr strs thr maxk n.toNat).io_arr
    (cull_after io_arr strs thr maxk n.toNat).j hjle
  unfold cvtx_remove_particles_under_str_threshold
  unfold cull_after at hlen hj htake hdef hfold hjle
  simp only []
  rw [hfold]
  refine ⟨by rw [hj], ?_, ?_⟩
  · rw [List.length_append, List.length_map, List.length_take, List.length_drop]
    omega
  · rw [List.take_append_of_le_length (by rw [List.length_map, List.length_take, hj]; omega)]
    rw [List.take_of_length_le (by rw [List.length_map, List.length_take, hj]; omega)]
    rw [htake, hdef, hj, List.map_map]
    rfl

theorem nsmul_x0 (n : Nat) (v : bsv_V3f K) : (n • v).x0 = n * v.x0 := by
  induction n with
  | zero => simp
  | succ n ih => rw [succ_nsmul, bsv_V3f_add_x0, ih]; push_cast; ring

theorem nsmul_x1 (n : Nat) (v : bsv_V3f K) : (n • v).x1 = n * v.x1 := by
  induction n with
  | zero => simp
  | succ n ih => rw [succ_nsmul, bsv_V3f_add_x1, ih]; push_cast; ring

theorem nsmul_x2 (n : Nat) (v : bsv_V3f K) : (n • v).x2 = n * v.x2 := by
  induction n with
  | zero => simp
  | succ n ih => rw [succ_nsmul, bsv_V3f_add_x2, ih]; push_cast; ring

theorem nsmul_div_self (n : Nat) (hn : n ≠ 0) (v : bsv_V3f K) :
    n • bsv_V3f_div v (n : K) = v := by
  have h : (n : K) ≠ 0 := Nat.cast_ne_zero.mpr hn
  ext
  · rw [nsmul_x0]; simp only [bsv_V3f_div]; field_simp
  · rw [nsmul_x1]; simp only [bsv_V3f_div]; field_simp
  · rw [nsmul_x2]; simp only [bsv_V3f_div]; field_simp

theorem sum_map_add_const {ι : Type} (l : List ι) (f : ι → bsv_V3f K) (d : bsv_V3f K) :
    (l.map (fun k => f k + d)).sum = (l.map f).sum + l.length • d := by
  induction l with
  | nil => simp
  | cons x xs ih =>
    simp only [List.map_cons, List.sum_cons, List.length_cons, ih, succ_nsmul]
    abel

theorem sum_kept_add_sum_removed (strs : List K) (thr : K) (maxk : Int)
    (f : Nat → bsv_V3f K) (n : Nat) :
    ((cull_kept strs thr maxk n).map f).sum + ((cull_removed strs thr maxk n).map f).sum
      = ((List.range n).map f).sum := by
  induction n with
  | zero => simp [cull_kept, cull_removed]
  | succ n ih =>
    rw [cull_kept_succ, cull_removed_succ, List.range_succ]
    simp only [List.map_append, List.sum_append, ← ih]
    by_cases h : strs.getD n 0 > thr ∧ (n : Int) < maxk
    · simp only [if_pos h, List.map_cons, List.map_nil, List.sum_cons, List.sum_nil]
      abel
    · simp only [if_neg h, List.map_cons, List.map_nil, List.sum_cons, List.sum_nil]
      abel

theorem map_range_getD {α : Type} (l : List α) (d : α) (n : Nat) (hn : n ≤ l.length) :
    (List.range n).map (fun k => l.getD k d) = l.take n := by
  induction n with
  | zero => simp
  | succ n ih =>
    have hlt : n < l.length := hn
    rw [List.range_succ, List.map_append, ih (Nat.le_of_succ_le hn), List.take_succ,
      List.getElem?_eq_getElem hlt]
    simp [List.getD_eq_getElem?_getD, List.getElem?_eq_getElem hlt]

theorem cull_zip_prefix (io_arr : List (cvtx_P3D K)) (strs : List K) (thr : K) (n i : Nat)
    (hi : i ≤ n) (ha : n ≤ io_arr.length) (hs : n ≤ strs.length) :
    (cull_kept strs thr (n : Int) i).map (fun k => io_arr.getD k default)
        = (((io_arr.take i).zip (strs.take i)).filter (fun ps => decide (ps.2 > thr))).map
            Prod.fst
    ∧ (cull_removed strs thr (n : Int) i).map (fun k => io_arr.getD k default)
        = (((io_arr.take i).zip (strs.take i)).filter (fun ps => decide (ps.2 ≤ thr))).map
            Prod.fst := by
  induction i with
  | zero => simp [cull_kept, cull_removed]
  | succ i ih =>
    obtain ⟨ih1, ih2⟩ := ih (Nat.le_of_succ_le hi)
    have hia : i < io_arr.length := by omega
    have his : i < strs.length := by omega
    have hin : ((i : Nat) : Int) < (n : Int) := by exact_mod_cast hi
    have hta : io_arr.take (i + 1) = io_arr.take i ++ [io_arr[i]] := by
      rw [List.take_succ, List.getElem?_eq_getElem hia]; rfl
    have hts : strs.take (i + 1) = strs.take i ++ [strs[i]] := by
      rw [List.take_succ, List.getElem?_eq_getElem his]; rfl
    have hz : (io_arr.take (i + 1)).zip (strs.take (i + 1))
        = (io_arr.take i).zip (strs.take i) ++ [(io_arr[i], strs[i])] := by
      rw [hta, hts, List.zip_append (by simp; omega)]; rfl
    have hgs : strs.getD i 0 = strs[i] := List.getD_eq_getElem _ _ his
    rw [cull_kept_succ, cull_removed_succ, hz, List.filter_append, List.filter_append,
      List.map_append, List.map_append, List.map_append, List.map_append, ih1, ih2, hgs]
    by_cases h : strs[i] > thr
    · have h' : ¬ strs[i] ≤ thr := not_le.mpr h
      simp [h, h', hin, List.getElem?_eq_getElem hia]
    · have h' : strs[i] ≤ thr := not_lt.mp h
      simp [h, h', List.getElem?_eq_getElem hia]

theorem cull_after_j (io_arr : List (cvtx_P3D K)) (strs : List K) (thr : K)
    (maxk : Int) (i : Nat) :
    (cull_after io_arr strs thr maxk i).j = (cull_kept strs thr maxk i).length := by
  induction i with
  | zero => simp [cull_after, cull_kept]
  | succ i ih =>
    rw [cull_after_succ, cull_kept_succ]
    by_cases h : strs.getD i 0 > thr ∧ (i : Int) < maxk
    · simp only [cull_step, if_pos h, ih, List.length_append, List.length_singleton]
    · simp only [cull_step, if_neg h, ih, List.append_nil]

theorem cull_count (io_arr : List (cvtx_P3D K)) (strs : List K) (n : Int) (thr : K)
    (maxk : Int) :
    (cvtx_remove_particles_under_str_threshold io_arr strs n thr maxk).1
      = ((cull_kept strs thr maxk n.toNat).length : Int) := by
  have h := cull_after_j io_arr strs thr maxk n.toNat
  unfold cull_after at h
  unfold cvtx_remove_particles_under_str_threshold
  simp only []
  rw [h]

theorem cull_kept_length_le_cap (strs : List K) (thr : K) (maxk : Int) (i : Nat) :
    ((cull_kept strs thr maxk i).length : Int) ≤ max 0 maxk := by
  induction i with
  | zero => simp [cull_kept]
  | succ i ih =>
    rw [cull_kept_succ]
    by_cases h : strs.getD i 0 > thr ∧ (i : Int) < maxk
    · rw [if_pos h, List.length_append, List.length_singleton]
      have h1 := cull_kept_length_le strs thr maxk i
      have h2 := h.2
      push_cast
      have h3 : ((cull_kept strs thr maxk i).length : Int) ≤ i := by exact_mod_cast h1
      exact le_trans (by omega) (le_max_right 0 maxk)
    · rw [if_neg h, List.append_nil]; exact ih

/-- The count returned by `cvtx_remove_particles_under_str_threshold` is at most
the input count and at most the cap, for non-negative counts. -/
theorem cull_count_le (io_arr : List (cvtx_P3D K)) (strs : List K) (n : Int) (thr : K)
    (maxk : Int) (hn : 0 ≤ n) (hm : 0 ≤ maxk) :
    (cvtx_remove_particles_under_str_threshold io_arr strs n thr maxk).1 ≤ min n maxk := by
  rw [cull_count]
  have h1 := cull_kept_length_le strs thr maxk n.toNat
  have h2 := cull_kept_length_le_cap strs thr maxk n.toNat
  rw [max_eq_right hm] at h2
  have h3 : ((cull_kept strs thr maxk n.toNat).length : Int) ≤ n := by omega
  exact le_min h3 h2

end CullLemmas

section CullClaims

variable [LinearOrderedField K]

/-- C1. Culling conserves total vorticity: when
`cvtx_remove_particles_under_str_threshold` keeps at least one particle, the
component-wise sum of the vorticities of the returned particles (the first
`n_output_particles` elements of the array) equals the component-wise sum of the
vorticities of the `n_inpt_partices` input particles. -/
theorem cull_conserves_total_vorticity (io_arr : List (cvtx_P3D K)) (strs : List K)
    (n_inpt_partices : Int) (min_keepable_str : K) (max_keepable : Int)
    (hn : n_inpt_partices.toNat ≤ io_arr.length)
    (hkept : 0 < (cvtx_remove_particles_under_str_threshold io_arr strs n_inpt_partices
      min_keepable_str max_keepable).1) :
    (((cvtx_remove_particles_under_str_threshold io_arr strs n_inpt_partices
        min_keepable_str max_keepable).2.take
      (cvtx_remove_particles_under_str_threshold io_arr strs n_inpt_partices
        min_keepable_str max_keepable).1.toNat).map (fun p => p.vorticity)).sum
      = ((io_arr.take n_inpt_partices.toNat).map (fun p => p.vorticity)).sum := by
  obtain ⟨h1, -, h3⟩ := cull_result io_arr strs n_inpt_partices min_keepable_str
    max_keepable hn
  rw [h1] at hkept ⊢
  have hne : (cull_kept strs min_keepable_str max_keepable n_inpt_partices.toNat).length ≠ 0 := by
    omega
  rw [Int.toNat_ofNat, h3, List.map_map]
  have hfun : ((fun p : cvtx_P3D K => p.vorticity) ∘ fun k =>
      add_deficit
        (bsv_V3f_div
          ((cull_removed strs min_keepable_str max_keepable n_inpt_partices.toNat).map
            (fun k => (io_arr.getD k default).vorticity)).sum
          ((cull_kept strs min_keepable_str max_keepable n_inpt_partices.toNat).length : K))
        (io_arr.getD k default))
      = fun k => (io_arr.getD k default).vorticity
        + bsv_V3f_div
          ((cull_removed strs min_keepable_str max_keepable n_inpt_partices.toNat).map
            (fun k => (io_arr.getD k default).vorticity)).sum
          ((cull_kept strs min_keepable_str max_keepable n_inpt_partices.toNat).length : K) := by
    funext k; rfl
  rw [hfun, sum_map_add_const, nsmul_div_self _ hne, sum_kept_add_sum_removed,
    ← map_range_getD io_arr default _ hn, List.map_map]
  rfl

/-- C3. Negligible-strength culling: with `max_keepable` equal to the input
count, `cvtx_remove_particles_under_str_threshold` keeps exactly the particles
whose strength is strictly above the threshold (those at or below it are
removed), in their original order, with `coord` and `volume` unchanged, and the
vorticity of every survivor is its original vorticity plus the sum of the
removed vorticities divided by the number of survivors. -/
theorem cull_negligible_strength (io_arr : List (cvtx_P3D K)) (strs : List K)
    (min_keepable_str : K) (hlen : strs.length = io_arr.length) :
    (cvtx_remove_particles_under_str_threshold io_arr strs (io_arr.length : Int)
        min_keepable_str (io_arr.length : Int)).1
      = ((((io_arr.zip strs).filter (fun ps => decide (ps.2 > min_keepable_str))).map
          Prod.fst).length : Int)
    ∧ (cvtx_remove_particles_under_str_threshold io_arr strs (io_arr.length : Int)
        min_keepable_str (io_arr.length : Int)).2.take
          (((io_arr.zip strs).filter (fun ps => decide (ps.2 > min_keepable_str))).map
            Prod.fst).length
      = (((io_arr.zip strs).filter (fun ps => decide (ps.2 > min_keepable_str))).map
          Prod.fst).map (fun p =>
            { coord := p.coord
              vorticity := p.vorticity + bsv_V3f_div
                ((((io_arr.zip strs).filter
                  (fun ps => decide (ps.2 ≤ min_keepable_str))).map
                    (fun ps => ps.1.vorticity)).sum)
                ((((io_arr.zip strs).filter
                  (fun ps => decide (ps.2 > min_keepable_str))).map
                    Prod.fst).length : K)
              volume := p.volume }) := by
  obtain ⟨h1, -, h3⟩ := cull_result io_arr strs (io_arr.length : Int) min_keepable_str
    (io_arr.length : Int) (by simp)
  obtain ⟨hk, hr⟩ := cull_zip_prefix io_arr strs min_keepable_str io_arr.length
    io_arr.length le_rfl le_rfl (by omega)
  rw [List.take_of_length_le (le_refl _), List.take_of_length_le (by omega)] at hk hr
  rw [Int.toNat_ofNat] at h1 h3
  have hkl := congrArg List.length hk
  rw [List.length_map] at hkl
  have hr' : (cull_removed strs min_keepable_str (io_arr.length : Int) io_arr.length).map
      (fun k => (io_arr.getD k default).vorticity)
      = ((io_arr.zip strs).filter (fun ps => decide (ps.2 ≤ min_keepable_str))).map
        (fun ps => ps.1.vorticity) := by
    have := congrArg (List.map (fun p : cvtx_P3D K => p.vorticity)) hr
    simpa [List.map_map, Function.comp_def] using this
  refine ⟨by rw [h1, hkl], ?_⟩
  rw [← hkl, h3, hr', ← hk, List.map_map]
  rfl

/-- C2 (failing input). Ten particles of strengths 1..10, cap 3, threshold 7:
exactly three strengths exceed the threshold (8, 9, 10, at positions 7, 8, 9),
and `cvtx_remove_particles_under_str_threshold` returns 0 instead of 3, because
its test `i < max_keepable` bounds the position `i`, not the number kept. -/
theorem cull_size_cap_keeps_nothing :
    (sample_ten_strs.filter (fun x => decide (x > 7))).length = 3
    ∧ (cvtx_remove_particles_under_str_threshold sample_ten sample_ten_strs 10 7 3).1 = 0 := by
  constructor <;> decide

theorem cull_conserves_total_vorticity_witness :
    (((cvtx_remove_particles_under_str_threshold sample_five sample_five_strs 5 11 5).2.take
      (cvtx_remove_particles_under_str_threshold sample_five sample_five_strs 5 11
        5).1.toNat).map (fun p => p.vorticity)).sum
      = ((sample_five.take (5 : Int).toNat).map (fun p => p.vorticity)).sum :=
  cull_conserves_total_vorticity sample_five sample_five_strs 5 11 5 (by decide) (by decide)

theorem cull_negligible_strength_witness :
    (cvtx_remove_particles_under_str_threshold sample_five sample_five_strs 5 11 5).1 = 1
    ∧ (cvtx_remove_particles_under_str_threshold sample_five sample_five_strs 5 11 5).2.take 1
        = [⟨⟨0, 0, 0⟩, ⟨105, 2, 3⟩, 1⟩] := by
  have h := cull_negligible_strength sample_five sample_five_strs 11 rfl
  norm_num [sample_five, sample_five_strs, sample_particle, List.filter, bsv_V3f_div,
    bsv_V3f_mk_add_mk] at h
  simpa [sample_five, sample_five_strs, sample_particle] using h

end CullClaims

section ListLemmas

theorem full_slices_flatMap {α : Type} (input : List α) (q m : Nat) :
    (List.range m).flatMap (fun t => (input.drop (t * q)).take q) = input.take (m * q) := by
  induction m with
  | zero => simp
  | succ m ih =>
    rw [List.range_succ, List.flatMap_append, ih, List.flatMap_singleton, Nat.succ_mul,
      List.take_add]

/-- The slices of the workers, in the order of the workers, make up the input
array: every particle is in exactly one slice, once. -/
theorem shard_slices_cover {α : Type} (input : List α) (nthreads : Nat)
    (hT : 1 ≤ nthreads) :
    (List.range nthreads).flatMap (shard_slice input nthreads) = input := by
  obtain ⟨m, rfl⟩ : ∃ m, nthreads = m + 1 := ⟨nthreads - 1, by omega⟩
  rw [List.range_succ, List.flatMap_append, List.flatMap_singleton]
  have h1 : (List.range m).flatMap (shard_slice input (m + 1))
      = (List.range m).flatMap
          (fun t => (input.drop (t * (input.length / (m + 1)))).take
            (input.length / (m + 1))) := by
    apply List.flatMap_congr
    intro t ht
    have htm : t ≠ m + 1 - 1 := by
      have := List.mem_range.mp ht
      omega
    unfold shard_slice shard_istart shard_iend
    rw [if_neg htm, Nat.succ_mul, Nat.add_sub_cancel_left]
  have h2 : shard_slice input (m + 1) m = input.drop (m * (input.length / (m + 1))) := by
    unfold shard_slice shard_istart shard_iend
    rw [if_pos (by omega)]
    apply List.take_of_length_le
    rw [List.length_drop]
  rw [h1, h2, full_slices_flatMap, List.take_append_drop]

theorem nearby_keys_zero (key : UIntKey96) : key.nearby_keys 0 = [key] := by
  have h : UIntKey96.axis_offsets 0 = [0] := by decide
  simp [UIntKey96.nearby_keys, h]

end ListLemmas

section AccumulatorLemmas

variable [LinearOrderedField K]

theorem add_entry_total (e : List (UIntKey96 × bsv_V3f K)) (key : UIntKey96)
    (str : bsv_V3f K) :
    ((GridParticleOcttree.add_entry e key str).map Prod.snd).sum
      = (e.map Prod.snd).sum + str := by
  induction e with
  | nil => simp [GridParticleOcttree.add_entry]
  | cons x xs ih =>
    obtain ⟨k, v⟩ := x
    unfold GridParticleOcttree.add_entry
    by_cases h : k = key
    · simp only [if_pos h, List.map_cons, List.sum_cons, bsv_V3f_plus_eq]; abel
    · simp only [if_neg h, List.map_cons, List.sum_cons, ih]; abel

theorem add_entries_total (l : List (UIntKey96 × bsv_V3f K))
    (e : List (UIntKey96 × bsv_V3f K)) :
    ((l.foldl (fun e ks => GridParticleOcttree.add_entry e ks.1 ks.2) e).map Prod.snd).sum
      = (e.map Prod.snd).sum + (l.map Prod.snd).sum := by
  induction l generalizing e with
  | nil => simp
  | cons x xs ih =>
    rw [List.foldl_cons, ih, add_entry_total, List.map_cons, List.sum_cons]; abel

theorem merge_in_total (t other : GridParticleOcttree K) :
    (t.merge_in other).total_vorticity = t.total_vorticity + other.total_vorticity := by
  unfold GridParticleOcttree.merge_in GridParticleOcttree.total_vorticity
  exact add_entries_total other.entries t.entries

theorem sum_map_mult {ι : Type} (l : List ι) (v : bsv_V3f K) (w : ι → K) :
    (l.map (fun i => bsv_V3f_mult v (w i))).sum = bsv_V3f_mult v (l.map w).sum := by
  induction l with
  | nil => ext <;> simp [bsv_V3f_mult]
  | cons x xs ih =>
    rw [List.map_cons, List.sum_cons, ih, List.map_cons, List.sum_cons]
    ext <;> simp [bsv_V3f_mult, mul_add]

theorem merge_fold_total (rest : List (GridParticleOcttree K)) (t0 : GridParticleOcttree K) :
    (rest.foldl GridParticleOcttree.merge_in t0).total_vorticity
      = t0.total_vorticity + (rest.map GridParticleOcttree.total_vorticity).sum := by
  induction rest generalizing t0 with
  | nil => simp
  | cons x xs ih => rw [List.foldl_cons, ih, merge_in_total, List.map_cons, List.sum_cons]; abel

end AccumulatorLemmas

section DepositLemmas

variable [LinearOrderedField K] [FloorRing K]

theorem deposit_particle_total (redistributor : cvtx_RedistFunc K) (grid_radius : Int)
    (grid_density recip_grid_density : K) (min : bsv_V3f K) (tree : GridParticleOcttree K)
    (p : cvtx_P3D K) :
    (deposit_particle redistributor grid_radius grid_density recip_grid_density min tree
        p).total_vorticity
      = tree.total_vorticity + bsv_V3f_mult p.vorticity
          (deposit_weight_sum redistributor grid_radius grid_density recip_grid_density min
            p.coord) := by
  unfold deposit_particle GridParticleOcttree.add_particles GridParticleOcttree.total_vorticity
  simp only []
  rw [add_entries_total]
  congr 1
  rw [List.map_snd_zip _ _ (by simp [deposit_strs])]
  unfold deposit_strs deposit_weight_sum
  rw [← sum_map_mult]
  rfl

theorem roundf_zero : roundf (0 : K) = 0 := by
  unfold roundf
  rw [if_pos (le_refl 0), Int.floor_eq_iff]
  norm_num

theorem deposit_fold_total (redistributor : cvtx_RedistFunc K) (grid_radius : Int)
    (grid_density recip_grid_density : K) (min : bsv_V3f K) (l : List (cvtx_P3D K))
    (tree : GridParticleOcttree K) :
    (l.foldl (deposit_particle redistributor grid_radius grid_density recip_grid_density min)
        tree).total_vorticity
      = tree.total_vorticity + (l.map (fun p => bsv_V3f_mult p.vorticity
          (deposit_weight_sum redistributor grid_radius grid_density recip_grid_density min
            p.coord))).sum := by
  induction l generalizing tree with
  | nil => simp
  | cons x xs ih =>
    rw [List.foldl_cons, ih, deposit_particle_total, List.map_cons, List.sum_cons]; abel

/-- The total vorticity held by the merged accumulator: every input particle
contributes its vorticity times the sum of its deposit weights. -/
theorem deposit_and_merge_total (redistributor : cvtx_RedistFunc K) (grid_density : K)
    (input : List (cvtx_P3D K)) (nthreads : Nat) (hT : 1 ≤ nthreads) :
    (deposit_and_merge redistributor grid_density input nthreads).total_vorticity
      = (input.map (fun p => bsv_V3f_mult p.vorticity
          (deposit_weight_sum redistributor (roundf redistributor.radius) grid_density
            (1 / grid_density)
            (grid_origin input (roundf redistributor.radius) grid_density) p.coord))).sum := by
  have hm : ∀ l : List (GridParticleOcttree K),
      (match l with
        | [] => (⟨[]⟩ : GridParticleOcttree K)
        | t0 :: rest => rest.foldl GridParticleOcttree.merge_in t0).total_vorticity
        = (l.map GridParticleOcttree.total_vorticity).sum := by
    intro l
    cases l with
    | nil => simp [GridParticleOcttree.total_vorticity]
    | cons t0 rest => simp only [merge_fold_total, List.map_cons, List.sum_cons]
  unfold deposit_and_merge
  simp only []
  rw [hm, List.map_map]
  generalize hg : (fun p : cvtx_P3D K => bsv_V3f_mult p.vorticity
    (deposit_weight_sum redistributor (roundf redistributor.radius) grid_density
      (1 / grid_density)
      (grid_origin input (roundf redistributor.radius) grid_density) p.coord)) = g
  have hc : (input.map g).sum
      = (((List.range nthreads).flatMap (shard_slice input nthreads)).map g).sum := by
    rw [shard_slices_cover input nthreads hT]
  rw [hc, List.map_flatMap, List.flatMap_def, List.sum_flatten, List.map_map]
  congr 1
  apply List.map_congr_left
  intro t _
  simp only [Function.comp_def, shard_tree]
  rw [deposit_fold_total, ← hg]
  simp [GridParticleOcttree.total_vorticity]

end DepositLemmas

section RedistributeClaims

variable [LinearOrderedField K] [FloorRing K]

/-- C4. A call of `cvtx_P3D_redistribute_on_grid` with a non-null output buffer
whose assertions hold returns a count that is at most `max_output_particles`,
and that count is the number of particles copied into the buffer; and
`cvtx_remove_particles_under_str_threshold` never returns more than
`min(n_inpt_partices, max_keepable)` for non-negative counts. -/
theorem redistribute_count_le_capacity :
    (∀ (sqrtf : K → K) (get_strength_threshold : List K → Int → Int → K) (nthreads : Nat)
      (input : List (cvtx_P3D K)) (max_output_particles : Int)
      (redistributor : cvtx_RedistFunc K) (grid_density negligible_vort : K),
      0 ≤ max_output_particles → 0 < grid_density → 0 ≤ negligible_vort →
      negligible_vort < 1 →
      ∃ r, cvtx_P3D_redistribute_on_grid sqrtf get_strength_threshold nthreads input true
          max_output_particles redistributor grid_density negligible_vort = some r
        ∧ r.1 ≤ max_output_particles ∧ (r.2.length : Int) = r.1)
    ∧ (∀ (io_arr : List (cvtx_P3D K)) (strs : List K) (n_inpt_partices : Int)
      (min_keepable_str : K) (max_keepable : Int),
      0 ≤ n_inpt_partices → 0 ≤ max_keepable →
      (cvtx_remove_particles_under_str_threshold io_arr strs n_inpt_partices
        min_keepable_str max_keepable).1 ≤ min n_inpt_partices max_keepable) := by
  refine ⟨?_, fun io_arr strs n thr maxk hn hm => cull_count_le io_arr strs n thr maxk hn hm⟩
  intro sqrtf gst nthreads input maxo red gd neg hmax hgd hneg0 hneg1
  unfold cvtx_P3D_redistribute_on_grid
  rw [if_neg (by simp [hmax, hgd, hneg0, hneg1])]
  simp only [if_true]
  generalize hnp : (List.map (fun ks : UIntKey96 × bsv_V3f K =>
      ({ volume := gd * gd * gd, vorticity := ks.2,
         coord := ks.1.to_position_min gd (grid_origin input (roundf red.radius) gd) } :
        cvtx_P3D K))
    ((deposit_and_merge red gd input nthreads).flatten_tree.1.zip
      (deposit_and_merge red gd input nthreads).flatten_tree.2)) = np
  have hnplen : np.length = (deposit_and_merge red gd input nthreads).number_of_particles := by
    rw [← hnp]
    simp [GridParticleOcttree.flatten_tree, GridParticleOcttree.number_of_particles]
  generalize (deposit_and_merge red gd input nthreads).number_of_particles = nc at *
  obtain ⟨h1, h2, -⟩ := cull_result np (np.map (fun p => bsv_V3f_abs sqrtf p.vorticity))
    (nc : Int) (farray_info_mean (np.map (fun p => bsv_V3f_abs sqrtf p.vorticity)) * neg)
    (nc : Int) (by simp [hnplen])
  have hk1 := cull_kept_length_le (np.map (fun p => bsv_V3f_abs sqrtf p.vorticity))
    (farray_info_mean (np.map (fun p => bsv_V3f_abs sqrtf p.vorticity)) * neg) (nc : Int)
    (nc : Int).toNat
  generalize hr1 : cvtx_remove_particles_under_str_threshold np
    (np.map (fun p => bsv_V3f_abs sqrtf p.vorticity)) (nc : Int)
    (farray_info_mean (np.map (fun p => bsv_V3f_abs sqrtf p.vorticity)) * neg) (nc : Int)
    = r1 at *
  rw [Int.toNat_ofNat] at h1 hk1
  have hr1len : (r1.2.take r1.1.toNat).length = r1.1.toNat := by
    rw [List.length_take, h1, Int.toNat_ofNat, h2, hnplen]; omega
  by_cases hgt : r1.1 > maxo
  · rw [if_pos hgt]
    refine ⟨_, rfl, ?_, ?_⟩
    · exact le_trans (cull_count_le _ _ _ _ _ (by omega) hmax) (min_le_right _ _)
    · obtain ⟨h1', h2', -⟩ := cull_result (r1.2.take r1.1.toNat)
        ((r1.2.take r1.1.toNat).map (fun p => bsv_V3f_abs sqrtf p.vorticity)) r1.1
        (gst ((r1.2.take r1.1.toNat).map (fun p => bsv_V3f_abs sqrtf p.vorticity)) r1.1 maxo)
        maxo (by rw [hr1len])
      have hk2 := cull_kept_length_le
        ((r1.2.take r1.1.toNat).map (fun p => bsv_V3f_abs sqrtf p.vorticity))
        (gst ((r1.2.take r1.1.toNat).map (fun p => bsv_V3f_abs sqrtf p.vorticity)) r1.1 maxo)
        maxo r1.1.toNat
      simp only [List.length_take, h2', hr1len, h1', Int.toNat_ofNat]
      omega
  · rw [if_neg hgt]
    refine ⟨_, rfl, by simpa using hgt, ?_⟩
    simp only [List.length_take, hr1len, min_self]
    omega

theorem redistribute_count_le_capacity_witness :
    (∃ r, cvtx_P3D_redistribute_on_grid sample_sqrtf (fun _ _ _ => 0) 2 sample_five true 3
          sample_redist_nearest 1 (1 / 2) = some r
        ∧ r.1 ≤ 3 ∧ (r.2.length : Int) = r.1)
    ∧ (cvtx_remove_particles_under_str_threshold sample_ten sample_ten_strs 10 7 3).1
        ≤ min 10 3 :=
  ⟨redistribute_count_le_capacity.1 sample_sqrtf (fun _ _ _ => 0) 2 sample_five 3
      sample_redist_nearest 1 (1 / 2) (by decide) (by norm_num) (by norm_num) (by norm_num),
    redistribute_count_le_capacity.2 sample_ten sample_ten_strs 10 7 3 (by decide)
      (by decide)⟩

/-- C5 (as amended). Deposit conservation: if, for every input particle, the
weights that the redistribution kernel gives to the keys of the particle's
deposit neighbourhood sum to 1, then after the per-shard deposit and the merge
of all shard accumulators the sum over all grid keys of the accumulated
vorticity equals the sum of the input particles' vorticities. -/
theorem deposit_conserves_total_vorticity (redistributor : cvtx_RedistFunc K)
    (grid_density : K) (input : List (cvtx_P3D K)) (nthreads : Nat) (hT : 1 ≤ nthreads)
    (hw : ∀ p ∈ input,
      deposit_weight_sum redistributor (roundf redistributor.radius) grid_density
        (1 / grid_density) (grid_origin input (roundf redistributor.radius) grid_density)
        p.coord = 1) :
    (deposit_and_merge redistributor grid_density input nthreads).total_vorticity
      = (input.map (fun p => p.vorticity)).sum := by
  rw [deposit_and_merge_total redistributor grid_density input nthreads hT]
  congr 1
  apply List.map_congr_left
  intro p hp
  rw [hw p hp]
  ext <;> simp [bsv_V3f_mult]

theorem deposit_conserves_total_vorticity_witness :
    (deposit_and_merge sample_redist_nearest 1 sample_five 2).total_vorticity
      = (sample_five.map (fun p => p.vorticity)).sum :=
  deposit_conserves_total_vorticity sample_redist_nearest 1 sample_five 2 (by decide)
    (by
      intro p _
      simp [deposit_weight_sum, sample_redist_nearest, roundf_zero, nearby_keys_zero])

/-- C5 (counterexample). With a redistribution kernel whose weighting function
is the constant 2 (support radius 0), one particle of vorticity `(1, 0, 0)` is
deposited as `(8, 0, 0)`: the accumulated total is not the input total. -/
theorem deposit_not_conserved_for_every_redistributor :
    (deposit_and_merge sample_redist_double 1 [sample_particle 1 0 0] 1).total_vorticity
      ≠ ([sample_particle 1 0 0].map (fun p => p.vorticity)).sum := by
  rw [deposit_and_merge_total _ _ _ _ (le_refl 1)]
  simp [deposit_weight_sum, sample_redist_double, roundf_zero, nearby_keys_zero,
    sample_particle, bsv_V3f_mult]
  norm_num

end RedistributeClaims

section InductionLemmas

variable [LinearOrderedField K]

theorem accum_fold {ι : Type} (f : ι → bsv_V3f K) (l : List ι) (r0 : Accum3 K) :
    (⟨(l.foldl (fun (r : Accum3 K) p => r.add (f p)) r0).rx,
      (l.foldl (fun (r : Accum3 K) p => r.add (f p)) r0).ry,
      (l.foldl (fun (r : Accum3 K) p => r.add (f p)) r0).rz⟩ : bsv_V3f K)
      = ⟨r0.rx, r0.ry, r0.rz⟩ + (l.map f).sum := by
  induction l generalizing r0 with
  | nil => ext <;> simp
  | cons x xs ih =>
    rw [List.foldl_cons, ih, List.map_cons, List.sum_cons]
    ext <;> simp [Accum3.add, add_assoc]

theorem sum_map_mult_right {ι : Type} (l : List ι) (f : ι → bsv_V3f K) (c : K) :
    (l.map (fun i => bsv_V3f_mult (f i) c)).sum = bsv_V3f_mult (l.map f).sum c := by
  induction l with
  | nil => ext <;> simp [bsv_V3f_mult]
  | cons x xs ih =>
    rw [List.map_cons, List.sum_cons, ih, List.map_cons, List.sum_cons]
    ext <;> simp [bsv_V3f_mult, add_mul]

theorem visc_fold_none {ι : Type} (f : ι → Option (bsv_V3f K)) (l : List ι) :
    l.foldl
      (fun (r : Option (Accum3 K)) p =>
        match r with
        | none => none
        | some r =>
          match f p with
          | none => none
          | some dvort => some (r.add dvort))
      none = none := by
  induction l with
  | nil => rfl
  | cons x xs ih => rw [List.foldl_cons]; exact ih

theorem visc_fold {ι : Type} (f : ι → Option (bsv_V3f K)) (l : List ι) (r0 : Accum3 K) :
    (l.foldl
      (fun (r : Option (Accum3 K)) p =>
        match r with
        | none => none
        | some r =>
          match f p with
          | none => none
          | some dvort => some (r.add dvort))
      (some r0)).map (fun r => (⟨r.rx, r.ry, r.rz⟩ : bsv_V3f K))
      = (l.mapM f).map (fun vs => (⟨r0.rx, r0.ry, r0.rz⟩ : bsv_V3f K) + vs.sum) := by
  induction l generalizing r0 with
  | nil =>
    rw [List.mapM_nil]
    simp only [List.foldl_nil, Option.map_some', Option.pure_def, List.sum_nil, add_zero]
  | cons x xs ih =>
    rw [List.foldl_cons, List.mapM_cons]
    cases hx : f x with
    | none => simp [visc_fold_none]
    | some v =>
      simp only [ih]
      cases hxs : List.mapM f xs with
      | none => simp
      | some vs =>
        simp only [Option.map_some', Option.some_bind, Option.bind_eq_bind, Option.pure_def,
          List.sum_cons]
        congr 1
        ext <;> simp [Accum3.add, add_assoc]

theorem vort_fold {ι : Type} (c : ι → Bool) (f : ι → bsv_V3f K) (l : List ι)
    (s0 : bsv_V3f K) :
    l.foldl (fun sum p => if c p then bsv_V3f_plus (f p) sum else sum) s0
      = s0 + ((l.filter c).map f).sum := by
  induction l generalizing s0 with
  | nil => simp
  | cons x xs ih =>
    rw [List.foldl_cons, ih]
    cases hc : c x
    · simp [List.filter_cons, hc]
    · simp only [if_true, List.filter_cons, hc, List.map_cons, List.sum_cons, bsv_V3f_plus_eq]
      abel

theorem sum_map_div {ι : Type} (l : List ι) (f : ι → bsv_V3f K) (c : K) :
    (l.map (fun i => bsv_V3f_div (f i) c)).sum = bsv_V3f_div (l.map f).sum c := by
  induction l with
  | nil => ext <;> simp [bsv_V3f_div]
  | cons x xs ih =>
    rw [List.map_cons, List.sum_cons, ih, List.map_cons, List.sum_cons]
    ext <;> simp [bsv_V3f_div, add_div]

/-- The value of `cvtx_P3D_M2S_vort` on a non-empty array. -/
theorem M2S_vort_value (sqrtf : K → K) (array_start : List (cvtx_P3D K))
    (mes_point : bsv_V3f K) (kernel : cvtx_VortFunc K) (regularisation_radius : K)
    (hN : array_start ≠ []) :
    cvtx_P3D_M2S_vort sqrtf array_start mes_point kernel regularisation_radius
      = some (bsv_V3f_div
          ((array_start.filter (fun p => vort_within_cutoff (5 * regularisation_radius)
              (bsv_V3f_minus p.coord mes_point))).map
            (fun p => bsv_V3f_mult p.vorticity
              (kernel.zeta_3D (bsv_V3f_abs sqrtf (bsv_V3f_minus p.coord mes_point)
                * (1 / regularisation_radius))))).sum
          (4 * CVTX_PI_F * regularisation_radius * regularisation_radius
            * regularisation_radius)) := by
  unfold cvtx_P3D_M2S_vort
  simp only []
  rw [if_neg (by simpa using hN)]
  refine congrArg some (congrArg (fun v => bsv_V3f_div v _) ?_)
  exact (vort_fold (fun p => vort_within_cutoff (5 * regularisation_radius)
      (bsv_V3f_minus p.coord mes_point))
    (fun p => bsv_V3f_mult p.vorticity
      (kernel.zeta_3D (bsv_V3f_abs sqrtf (bsv_V3f_minus p.coord mes_point)
        * (1 / regularisation_radius)))) array_start bsv_V3f_zero).trans
    (by rw [bsv_V3f_zero_eq, zero_add])

end InductionLemmas

section InductionClaims

variable [LinearOrderedField K]

/-- C6. Many-to-single consistency: `cvtx_P3D_M2S_vel` is the sum over the
sources of `cvtx_P3D_S2S_vel`, `cvtx_P3D_M2S_dvort` is the sum of
`cvtx_P3D_S2S_dvort`, and `cvtx_P3D_M2S_visc_dvort` is the sum of
`cvtx_P3D_S2S_visc_dvort` (a result exactly when every single-source call gives
one, that is when the kernel defines `eta_3D` or there is no source). -/
theorem M2S_eq_sum_S2S (sqrtf : K → K) (array_start : List (cvtx_P3D K))
    (mes_point : bsv_V3f K) (induced_particle : cvtx_P3D K) (kernel : cvtx_VortFunc K)
    (regularisation_radius kinematic_visc : K) :
    cvtx_P3D_M2S_vel sqrtf array_start mes_point kernel regularisation_radius
        = (array_start.map (fun p =>
            cvtx_P3D_S2S_vel sqrtf p mes_point kernel regularisation_radius)).sum
    ∧ cvtx_P3D_M2S_dvort sqrtf array_start induced_particle kernel regularisation_radius
        = (array_start.map (fun p =>
            cvtx_P3D_S2S_dvort sqrtf p induced_particle kernel regularisation_radius)).sum
    ∧ cvtx_P3D_M2S_visc_dvort sqrtf array_start induced_particle kernel
          regularisation_radius kinematic_visc
        = (array_start.mapM (fun p =>
            cvtx_P3D_S2S_visc_dvort sqrtf p induced_particle kernel regularisation_radius
              kinematic_visc)).map List.sum := by
  refine ⟨?_, ?_, ?_⟩
  · unfold cvtx_P3D_M2S_vel cvtx_P3D_S2S_vel
    simp only []
    rw [accum_fold, sum_map_mult_right]
    congr 1
    ext <;> simp
  · unfold cvtx_P3D_M2S_dvort
    simp only []
    rw [accum_fold]
    ext <;> simp
  · unfold cvtx_P3D_M2S_visc_dvort
    rw [visc_fold]
    congr 1
    funext vs
    ext <;> simp

/-- C7 (as amended). `cvtx_P3D_M2S_vort` on a non-empty array of sources equals
the sum of `cvtx_P3D_S2S_vort` over those sources whose displacement from the
measurement point is below `5 * sigma` in absolute value on every axis; the
other sources are left out of the sum. -/
theorem M2S_vort_eq_sum_S2S_vort_within_cutoff (sqrtf : K → K)
    (array_start : List (cvtx_P3D K)) (mes_point : bsv_V3f K) (kernel : cvtx_VortFunc K)
    (regularisation_radius : K) (hN : array_start ≠ []) :
    cvtx_P3D_M2S_vort sqrtf array_start mes_point kernel regularisation_radius
      = some ((array_start.filter (fun p =>
            decide (|p.coord.x0 - mes_point.x0| < 5 * regularisation_radius
              ∧ |p.coord.x1 - mes_point.x1| < 5 * regularisation_radius
              ∧ |p.coord.x2 - mes_point.x2| < 5 * regularisation_radius))).map
          (fun p => cvtx_P3D_S2S_vort sqrtf p mes_point kernel regularisation_radius)).sum := by
  rw [M2S_vort_value sqrtf array_start mes_point kernel regularisation_radius hN,
    ← sum_map_div]
  congr 2
  apply List.map_congr_left
  intro p _
  unfold cvtx_P3D_S2S_vort
  ext <;> simp [bsv_V3f_mult, bsv_V3f_div, div_eq_mul_inv, mul_assoc]

theorem M2S_vort_eq_sum_S2S_vort_within_cutoff_witness :
    cvtx_P3D_M2S_vort sample_sqrtf [sample_particle_at 1, sample_particle_at 10] ⟨0, 0, 0⟩
        sample_kernel 1
      = some (([sample_particle_at 1, sample_particle_at 10].filter (fun p =>
            decide (|p.coord.x0 - 0| < 5 * 1 ∧ |p.coord.x1 - 0| < 5 * 1
              ∧ |p.coord.x2 - 0| < 5 * 1))).map
          (fun p => cvtx_P3D_S2S_vort sample_sqrtf p ⟨0, 0, 0⟩ sample_kernel 1)).sum :=
  M2S_vort_eq_sum_S2S_vort_within_cutoff sample_sqrtf
    [sample_particle_at 1, sample_particle_at 10] ⟨0, 0, 0⟩ sample_kernel 1 (by simp)

/-- C7 (counterexample). One source at `(10, 0, 0)`, measurement point at the
origin, `sigma = 1`, `zeta` constant 1: `cvtx_P3D_M2S_vort` skips the source and
returns zero, while `cvtx_P3D_S2S_vort` of that source is not zero. -/
theorem M2S_vort_ne_sum_S2S_vort :
    cvtx_P3D_M2S_vort sample_sqrtf [sample_particle_at 10] ⟨0, 0, 0⟩ sample_kernel 1
      ≠ some (([sample_particle_at 10].map
          (fun p => cvtx_P3D_S2S_vort sample_sqrtf p ⟨0, 0, 0⟩ sample_kernel 1)).sum) := by
  rw [M2S_vort_value _ _ _ _ _ (by simp)]
  simp [vort_within_cutoff, bsv_V3f_minus, sample_particle_at, cvtx_P3D_S2S_vort,
    sample_kernel, bsv_V3f_mult, bsv_V3f_div, CVTX_PI_F]
  norm_num

/-- C8 (as amended). Cutoff of `cvtx_P3D_M2S_vort`: on a non-empty array a
source is skipped if and only if the absolute value of its displacement from
the target is at least `5 * sigma` on at least one axis (a displacement of
exactly `5 * sigma` on an axis is skipped); every other source contributes
`vorticity * zeta(|rad| / sigma)`, and the total is divided by
`4 * pi * sigma ^ 3`. -/
theorem M2S_vort_cutoff (sqrtf : K → K) (array_start : List (cvtx_P3D K))
    (mes_point : bsv_V3f K) (kernel : cvtx_VortFunc K) (regularisation_radius : K)
    (hN : array_start ≠ []) :
    cvtx_P3D_M2S_vort sqrtf array_start mes_point kernel regularisation_radius
      = some (bsv_V3f_div
          ((array_start.filter (fun p =>
              decide (¬ (|p.coord.x0 - mes_point.x0| ≥ 5 * regularisation_radius
                ∨ |p.coord.x1 - mes_point.x1| ≥ 5 * regularisation_radius
                ∨ |p.coord.x2 - mes_point.x2| ≥ 5 * regularisation_radius)))).map
            (fun p => bsv_V3f_mult p.vorticity
              (kernel.zeta_3D (bsv_V3f_abs sqrtf (bsv_V3f_minus p.coord mes_point)
                / regularisation_radius)))).sum
          (4 * CVTX_PI_F * regularisation_radius ^ 3)) := by
  rw [M2S_vort_value sqrtf array_start mes_point kernel regularisation_radius hN]
  have hf : (fun p : cvtx_P3D K => vort_within_cutoff (5 * regularisation_radius)
        (bsv_V3f_minus p.coord mes_point))
      = fun p => decide (¬ (|p.coord.x0 - mes_point.x0| ≥ 5 * regularisation_radius
          ∨ |p.coord.x1 - mes_point.x1| ≥ 5 * regularisation_radius
          ∨ |p.coord.x2 - mes_point.x2| ≥ 5 * regularisation_radius)) := by
    funext p
    simp only [vort_within_cutoff, bsv_V3f_minus, ge_iff_le, not_or, not_le]
  have hd : 4 * CVTX_PI_F * regularisation_radius * regularisation_radius
      * regularisation_radius = 4 * CVTX_PI_F * regularisation_radius ^ 3 := by ring
  rw [hf, hd]
  simp only [mul_one_div]

theorem M2S_vort_cutoff_witness :
    cvtx_P3D_M2S_vort sample_sqrtf [sample_particle_at 5, sample_particle_at 4] ⟨0, 0, 0⟩
        sample_kernel 1
      = some (bsv_V3f_div
          (([sample_particle_at 5, sample_particle_at 4].filter (fun p =>
              decide (¬ (|p.coord.x0 - 0| ≥ 5 * 1 ∨ |p.coord.x1 - 0| ≥ 5 * 1
                ∨ |p.coord.x2 - 0| ≥ 5 * 1)))).map
            (fun p => bsv_V3f_mult p.vorticity
              (sample_kernel.zeta_3D
                (bsv_V3f_abs sample_sqrtf (bsv_V3f_minus p.coord ⟨0, 0, 0⟩) / 1)))).sum
          (4 * CVTX_PI_F * 1 ^ 3)) :=
  M2S_vort_cutoff sample_sqrtf [sample_particle_at 5, sample_particle_at 4] ⟨0, 0, 0⟩
    sample_kernel 1 (by simp)

/-- C8 (counterexample). One source whose displacement from the target is
exactly `5 * sigma` on the first axis (`sigma = 1`, `zeta` constant 1): the
claim lets it contribute, `cvtx_P3D_M2S_vort` skips it and returns zero. -/
theorem M2S_vort_skips_at_cutoff :
    cvtx_P3D_M2S_vort sample_sqrtf [sample_particle_at 5] ⟨0, 0, 0⟩ sample_kernel 1
      ≠ some (M2S_vort_as_claimed sample_sqrtf [sample_particle_at 5] ⟨0, 0, 0⟩
          sample_kernel 1) := by
  rw [M2S_vort_value _ _ _ _ _ (by simp)]
  simp [vort_within_cutoff, bsv_V3f_minus, sample_particle_at, M2S_vort_as_claimed,
    sample_kernel, bsv_V3f_mult, bsv_V3f_div, CVTX_PI_F]

/-- C9. Self-induction of velocity: `cvtx_P3D_S2S_vel` of a particle at its own
position is the zero vector, whatever the kernel (its `g_3D` is not consulted)
and whatever the regularisation radius. -/
theorem S2S_vel_self_induction (sqrtf : K → K) (p : cvtx_P3D K) (kernel : cvtx_VortFunc K)
    (regularisation_radius : K) :
    cvtx_P3D_S2S_vel sqrtf p p.coord kernel regularisation_radius = bsv_V3f_zero := by
  unfold cvtx_P3D_S2S_vel P3D_vel_inner
  simp [bsv_V3f_isequal, bsv_V3f_mult, bsv_V3f_zero]

/-- C10. Coincident particles induce no vorticity change: when the two particles
have the same position, `cvtx_P3D_S2S_dvort` is the zero vector, whatever the
kernel and the regularisation radius. -/
theorem S2S_dvort_coincident (sqrtf : K → K) (a b : cvtx_P3D K) (kernel : cvtx_VortFunc K)
    (regularisation_radius : K) (h : a.coord = b.coord) :
    cvtx_P3D_S2S_dvort sqrtf a b kernel regularisation_radius = bsv_V3f_zero := by
  unfold cvtx_P3D_S2S_dvort
  simp [bsv_V3f_isequal, h]

theorem S2S_dvort_coincident_witness :
    cvtx_P3D_S2S_dvort sample_sqrtf (sample_particle 1 2 3) (sample_particle 0 5 0)
      sample_kernel 1 = bsv_V3f_zero :=
  S2S_dvort_coincident sample_sqrtf (sample_particle 1 2 3) (sample_particle 0 5 0)
    sample_kernel 1 rfl

end InductionClaims

section OperatorLemmas

variable [LinearOrderedField K]

theorem bsv_V3f_isequal_iff (a b : bsv_V3f K) : bsv_V3f_isequal a b = true ↔ a = b := by
  unfold bsv_V3f_isequal
  rw [decide_eq_true_iff]
  constructor
  · rintro ⟨h0, h1, h2⟩; exact bsv_V3f_ext h0 h1 h2
  · rintro rfl; exact ⟨rfl, rfl, rfl⟩

theorem bsv_V3f_isequal_of_ne {a b : bsv_V3f K} (h : a ≠ b) : bsv_V3f_isequal a b = false := by
  cases hb : bsv_V3f_isequal a b
  · rfl
  · exact absurd ((bsv_V3f_isequal_iff a b).mp hb) h

theorem bsv_V3f_abs_minus_comm (sqrtf : K → K) (a b : bsv_V3f K) :
    bsv_V3f_abs sqrtf (bsv_V3f_minus a b) = bsv_V3f_abs sqrtf (bsv_V3f_minus b a) := by
  unfold bsv_V3f_abs bsv_V3f_minus
  congr 1
  ring

theorem bsv_V3f_abs_neg (sqrtf : K → K) (a : bsv_V3f K) :
    bsv_V3f_abs sqrtf (-a) = bsv_V3f_abs sqrtf a := by
  unfold bsv_V3f_abs
  congr 1
  simp only [bsv_V3f_neg_x0, bsv_V3f_neg_x1, bsv_V3f_neg_x2]
  ring

/-- Swapping the two particles of `cvtx_P3D_S2S_dvort` and negating both
vorticities negates the result. -/
theorem S2S_dvort_swap_neg (sqrtf : K → K) (a b : cvtx_P3D K) (kernel : cvtx_VortFunc K)
    (regularisation_radius : K) :
    cvtx_P3D_S2S_dvort sqrtf ⟨b.coord, -b.vorticity, b.volume⟩
        ⟨a.coord, -a.vorticity, a.volume⟩ kernel regularisation_radius
      = -cvtx_P3D_S2S_dvort sqrtf a b kernel regularisation_radius := by
  unfold cvtx_P3D_S2S_dvort
  by_cases h : a.coord = b.coord
  · rw [if_pos ((bsv_V3f_isequal_iff _ _).mpr h.symm), if_pos ((bsv_V3f_isequal_iff _ _).mpr h)]
    ext <;> simp [bsv_V3f_zero]
  · rw [if_neg (by rw [bsv_V3f_isequal_of_ne (Ne.symm h)]; decide),
      if_neg (by rw [bsv_V3f_isequal_of_ne h]; decide)]
    simp only []
    rw [bsv_V3f_abs_minus_comm sqrtf a.coord b.coord]
    generalize bsv_V3f_abs sqrtf (bsv_V3f_minus b.coord a.coord) = radd
    generalize kernel.combined_3D |radd / regularisation_radius| = gf
    ext <;>
      simp only [bsv_V3f_mult, bsv_V3f_plus, bsv_V3f_div, bsv_V3f_cross, bsv_V3f_dot,
        bsv_V3f_minus, bsv_V3f_neg_x0, bsv_V3f_neg_x1, bsv_V3f_neg_x2] <;>
      ring

end OperatorLemmas

section OperatorClaims

variable [LinearOrderedField K]

/-- C11. Mollified Biot-Savart law: for a point different from the position of
the source and a positive regularisation radius `sigma`, `cvtx_P3D_S2S_vel` is
`(rad x vorticity) * (-g(rho) / |rad|^3) / (4 * pi)` with
`rad = point - source.coord` and `rho = |rad| / sigma`; `pi` is the constant
`CVTX_PI_F` of the code. -/
theorem S2S_vel_biot_savart (sqrtf : K → K) (source : cvtx_P3D K) (point : bsv_V3f K)
    (kernel : cvtx_VortFunc K) (sigma : K) (hne : point ≠ source.coord) (hsigma : 0 < sigma) :
    cvtx_P3D_S2S_vel sqrtf source point kernel sigma
      = bsv_V3f_div
          (bsv_V3f_mult (bsv_V3f_cross (bsv_V3f_minus point source.coord) source.vorticity)
            (-kernel.g_3D (bsv_V3f_abs sqrtf (bsv_V3f_minus point source.coord) / sigma)
              / bsv_V3f_abs sqrtf (bsv_V3f_minus point source.coord) ^ 3))
          (4 * CVTX_PI_F) := by
  unfold cvtx_P3D_S2S_vel P3D_vel_inner
  rw [if_neg (by rw [bsv_V3f_isequal_of_ne (Ne.symm hne)]; decide)]
  simp only [powf, abs_of_pos hsigma]
  generalize bsv_V3f_abs sqrtf (bsv_V3f_minus point source.coord) = radd
  have hz : radd ^ (-3 : Int) = (radd ^ 3)⁻¹ := by
    rw [zpow_neg]; norm_cast
  rw [hz, mul_one_div]
  ext <;> simp only [bsv_V3f_mult, bsv_V3f_div] <;> ring

theorem S2S_vel_biot_savart_witness :
    cvtx_P3D_S2S_vel sample_sqrtf (sample_particle 0 0 1) ⟨3, 4, 0⟩ sample_kernel 2
      = bsv_V3f_div
          (bsv_V3f_mult
            (bsv_V3f_cross (bsv_V3f_minus ⟨3, 4, 0⟩ (sample_particle 0 0 1).coord)
              (sample_particle 0 0 1).vorticity)
            (-sample_kernel.g_3D
                (bsv_V3f_abs sample_sqrtf
                  (bsv_V3f_minus ⟨3, 4, 0⟩ (sample_particle 0 0 1).coord) / 2)
              / bsv_V3f_abs sample_sqrtf
                  (bsv_V3f_minus ⟨3, 4, 0⟩ (sample_particle 0 0 1).coord) ^ 3))
          (4 * CVTX_PI_F) :=
  S2S_vel_biot_savart sample_sqrtf (sample_particle 0 0 1) ⟨3, 4, 0⟩ sample_kernel 2
    (by simp [sample_particle]) (by norm_num)

end OperatorClaims

theorem sample_sqrtf_nonneg (x : ℚ) : 0 ≤ sample_sqrtf x :=
  div_nonneg (Nat.cast_nonneg _) (Nat.cast_nonneg _)

section OperatorClaims2

variable [LinearOrderedField K]

/-- C12. Vortex-stretching formula: for two particles at different positions, a
positive regularisation radius `sigma` and a square root that is never
negative, `cvtx_P3D_S2S_dvort` is
`[(cross / rho^3) * g + rad * (-1 / |rad|^2) * (3 g / rho^3 - f) * dot(rad, cross)]
/ (4 * pi * sigma^3)` with `rad = target.coord - source.coord`,
`rho = |rad| / sigma`, `(g, f) = combined_3D(rho)` and
`cross = target.vorticity x source.vorticity`; `pi` is the constant `CVTX_PI_F`. -/
theorem S2S_dvort_stretching (sqrtf : K → K) (source target : cvtx_P3D K)
    (kernel : cvtx_VortFunc K) (sigma : K) (hne : source.coord ≠ target.coord)
    (hsigma : 0 < sigma) (hsqrt : ∀ x, 0 ≤ sqrtf x) :
    cvtx_P3D_S2S_dvort sqrtf source target kernel sigma
      = bsv_V3f_div
          (bsv_V3f_plus
            (bsv_V3f_mult
              (bsv_V3f_div (bsv_V3f_cross target.vorticity source.vorticity)
                ((bsv_V3f_abs sqrtf (bsv_V3f_minus target.coord source.coord) / sigma) ^ 3))
              (kernel.combined_3D
                (bsv_V3f_abs sqrtf (bsv_V3f_minus target.coord source.coord) / sigma)).1)
            (bsv_V3f_mult (bsv_V3f_minus target.coord source.coord)
              (-1 / bsv_V3f_abs sqrtf (bsv_V3f_minus target.coord source.coord) ^ 2
                * (3 * (kernel.combined_3D
                      (bsv_V3f_abs sqrtf (bsv_V3f_minus target.coord source.coord)
                        / sigma)).1
                    / (bsv_V3f_abs sqrtf (bsv_V3f_minus target.coord source.coord)
                        / sigma) ^ 3
                  - (kernel.combined_3D
                      (bsv_V3f_abs sqrtf (bsv_V3f_minus target.coord source.coord)
                        / sigma)).2)
                * bsv_V3f_dot (bsv_V3f_minus target.coord source.coord)
                    (bsv_V3f_cross target.vorticity source.vorticity))))
          (4 * CVTX_PI_F * sigma ^ 3) := by
  unfold cvtx_P3D_S2S_dvort
  rw [if_neg (by rw [bsv_V3f_isequal_of_ne hne]; decide)]
  have hrho : |bsv_V3f_abs sqrtf (bsv_V3f_minus target.coord source.coord) / sigma|
      = bsv_V3f_abs sqrtf (bsv_V3f_minus target.coord source.coord) / sigma :=
    abs_of_nonneg (div_nonneg (hsqrt _) (le_of_lt hsigma))
  simp only [powf, hrho]
  generalize bsv_V3f_abs sqrtf (bsv_V3f_minus target.coord source.coord) = radd
  generalize kernel.combined_3D (radd / sigma) = gf
  have hz : sigma ^ (3 : Int) = sigma ^ 3 := by norm_cast
  rw [hz]
  ext <;> simp only [bsv_V3f_mult, bsv_V3f_plus, bsv_V3f_div] <;> ring

theorem S2S_dvort_stretching_witness :
    cvtx_P3D_S2S_dvort sample_sqrtf (sample_particle 0 0 1) (sample_particle_at 3)
        sample_kernel 2
      = bsv_V3f_div
          (bsv_V3f_plus
            (bsv_V3f_mult
              (bsv_V3f_div
                (bsv_V3f_cross (sample_particle_at 3).vorticity
                  (sample_particle 0 0 1).vorticity)
                ((bsv_V3f_abs sample_sqrtf
                  (bsv_V3f_minus (sample_particle_at 3).coord
                    (sample_particle 0 0 1).coord) / 2) ^ 3))
              (sample_kernel.combined_3D
                (bsv_V3f_abs sample_sqrtf
                  (bsv_V3f_minus (sample_particle_at 3).coord
                    (sample_particle 0 0 1).coord) / 2)).1)
            (bsv_V3f_mult
              (bsv_V3f_minus (sample_particle_at 3).coord (sample_particle 0 0 1).coord)
              (-1 / bsv_V3f_abs sample_sqrtf
                  (bsv_V3f_minus (sample_particle_at 3).coord
                    (sample_particle 0 0 1).coord) ^ 2
                * (3 * (sample_kernel.combined_3D
                      (bsv_V3f_abs sample_sqrtf
                        (bsv_V3f_minus (sample_particle_at 3).coord
                          (sample_particle 0 0 1).coord) / 2)).1
                    / (bsv_V3f_abs sample_sqrtf
                        (bsv_V3f_minus (sample_particle_at 3).coord
                          (sample_particle 0 0 1).coord) / 2) ^ 3
                  - (sample_kernel.combined_3D
                      (bsv_V3f_abs sample_sqrtf
                        (bsv_V3f_minus (sample_particle_at 3).coord
                          (sample_particle 0 0 1).coord) / 2)).2)
                * bsv_V3f_dot
                    (bsv_V3f_minus (sample_particle_at 3).coord
                      (sample_particle 0 0 1).coord)
                    (bsv_V3f_cross (sample_particle_at 3).vorticity
                      (sample_particle 0 0 1).vorticity))))
          (4 * CVTX_PI_F * 2 ^ 3) :=
  S2S_dvort_stretching sample_sqrtf (sample_particle 0 0 1) (sample_particle_at 3)
    sample_kernel 2 (by simp [sample_particle, sample_particle_at]) (by norm_num)
    sample_sqrtf_nonneg

/-- C13. Viscous exchange: for a kernel that defines `eta_3D`, a positive
regularisation radius `sigma`, a viscosity `nu` and a square root that is never
negative, `cvtx_P3D_S2S_visc_dvort` is zero when the two positions coincide and
otherwise `(source.vorticity * target.volume - target.vorticity * source.volume)
* eta(rho) * 2 * nu / sigma^2` with `rho = |source.coord - target.coord| / sigma`. -/
theorem S2S_visc_dvort_exchange (sqrtf : K → K) (source target : cvtx_P3D K)
    (kernel : cvtx_VortFunc K) (eta : K → K) (sigma nu : K)
    (heta : kernel.eta_3D = some eta) (hsigma : 0 < sigma) (hsqrt : ∀ x, 0 ≤ sqrtf x) :
    (source.coord = target.coord →
      cvtx_P3D_S2S_visc_dvort sqrtf source target kernel sigma nu = some bsv_V3f_zero)
    ∧ (source.coord ≠ target.coord →
      cvtx_P3D_S2S_visc_dvort sqrtf source target kernel sigma nu
        = some (bsv_V3f_mult
            (bsv_V3f_minus (bsv_V3f_mult source.vorticity target.volume)
              (bsv_V3f_mult target.vorticity source.volume))
            (eta (bsv_V3f_abs sqrtf (bsv_V3f_minus source.coord target.coord) / sigma)
              * 2 * nu / sigma ^ 2))) := by
  unfold cvtx_P3D_S2S_visc_dvort
  rw [heta]
  constructor
  · intro h
    simp only []
    rw [if_pos ((bsv_V3f_isequal_iff _ _).mpr h)]
  · intro h
    simp only []
    rw [if_neg (by rw [bsv_V3f_isequal_of_ne h]; decide)]
    have hrho : |bsv_V3f_abs sqrtf (bsv_V3f_minus source.coord target.coord) / sigma|
        = bsv_V3f_abs sqrtf (bsv_V3f_minus source.coord target.coord) / sigma :=
      abs_of_nonneg (div_nonneg (hsqrt _) (le_of_lt hsigma))
    simp only [powf, hrho]
    generalize eta (bsv_V3f_abs sqrtf (bsv_V3f_minus source.coord target.coord) / sigma) = e
    have hz : sigma ^ (2 : Int) = sigma ^ 2 := by norm_cast
    rw [hz]
    congr 1
    ext <;> simp only [bsv_V3f_mult, bsv_V3f_plus, bsv_V3f_minus] <;> ring

theorem S2S_visc_dvort_exchange_witness :
    ((sample_particle 0 0 1).coord = (sample_particle_at 3).coord →
      cvtx_P3D_S2S_visc_dvort sample_sqrtf (sample_particle 0 0 1) (sample_particle_at 3)
        sample_kernel 2 5 = some bsv_V3f_zero)
    ∧ ((sample_particle 0 0 1).coord ≠ (sample_particle_at 3).coord →
      cvtx_P3D_S2S_visc_dvort sample_sqrtf (sample_particle 0 0 1) (sample_particle_at 3)
          sample_kernel 2 5
        = some (bsv_V3f_mult
            (bsv_V3f_minus
              (bsv_V3f_mult (sample_particle 0 0 1).vorticity (sample_particle_at 3).volume)
              (bsv_V3f_mult (sample_particle_at 3).vorticity (sample_particle 0 0 1).volume))
            ((fun _ => (1 : ℚ))
                (bsv_V3f_abs sample_sqrtf
                  (bsv_V3f_minus (sample_particle 0 0 1).coord
                    (sample_particle_at 3).coord) / 2)
              * 2 * 5 / 2 ^ 2))) :=
  S2S_visc_dvort_exchange sample_sqrtf (sample_particle 0 0 1) (sample_particle_at 3)
    sample_kernel (fun _ => 1) 2 5 rfl (by norm_num) sample_sqrtf_nonneg

/-- C17. Vorticity reconstruction formula: `cvtx_P3D_S2S_vort` is
`source.vorticity * zeta(|rad| / sigma) / (4 * pi * sigma^3)` with
`rad = source.coord - point`, for every point, the position of the source
included; `pi` is the constant `CVTX_PI_F`. -/
theorem S2S_vort_formula (sqrtf : K → K) (source : cvtx_P3D K) (point : bsv_V3f K)
    (kernel : cvtx_VortFunc K) (sigma : K) :
    cvtx_P3D_S2S_vort sqrtf source point kernel sigma
      = bsv_V3f_div
          (bsv_V3f_mult source.vorticity
            (kernel.zeta_3D (bsv_V3f_abs sqrtf (bsv_V3f_minus source.coord point) / sigma)))
          (4 * CVTX_PI_F * sigma ^ 3) := by
  unfold cvtx_P3D_S2S_vort
  simp only []
  generalize kernel.zeta_3D (bsv_V3f_abs sqrtf (bsv_V3f_minus source.coord point) / sigma) = z
  have hd : 4 * CVTX_PI_F * sigma * sigma * sigma = 4 * CVTX_PI_F * sigma ^ 3 := by ring
  rw [hd]
  ext <;> simp only [bsv_V3f_mult, bsv_V3f_div] <;> ring

/-- C19. Swap symmetry of vortex stretching: `cvtx_P3D_S2S_dvort` with source
and target swapped and both vorticities negated has the same Euclidean
magnitude as `cvtx_P3D_S2S_dvort` of the original pair. -/
theorem S2S_dvort_swap_magnitude (sqrtf : K → K) (a b : cvtx_P3D K)
    (kernel : cvtx_VortFunc K) (sigma : K) :
    bsv_V3f_abs sqrtf
        (cvtx_P3D_S2S_dvort sqrtf ⟨b.coord, -b.vorticity, b.volume⟩
          ⟨a.coord, -a.vorticity, a.volume⟩ kernel sigma)
      = bsv_V3f_abs sqrtf (cvtx_P3D_S2S_dvort sqrtf a b kernel sigma) := by
  rw [S2S_dvort_swap_neg, bsv_V3f_abs_neg]

end OperatorClaims2

section RelaxLemmas

variable [LinearOrderedField K]

theorem range_foldl_set {α : Type} (d : α) (f : Nat → α → α) (arr : List α) (m : Nat)
    (hm : m ≤ arr.length) :
    (List.range m).foldl (fun a i => a.set i (f i (a.getD i d))) arr
      = (List.range m).map (fun i => f i (arr.getD i d)) ++ arr.drop m := by
  induction m with
  | zero => simp
  | succ m ih =>
    have hlt : m < arr.length := hm
    rw [List.range_succ, List.foldl_append, ih (Nat.le_of_succ_le hm)]
    have hlen : ((List.range m).map (fun i => f i (arr.getD i d))).length = m := by simp
    simp only [List.foldl_cons, List.foldl_nil]
    have hg : (List.map (fun i => f i (arr.getD i d)) (List.range m) ++ List.drop m arr).getD m d
        = arr.getD m d := by
      rw [List.getD_eq_getElem?_getD, List.getElem?_append_right (by omega), hlen,
        List.getD_eq_getElem?_getD]
      simp [List.getElem?_drop]
    rw [hg, List.set_append_right _ _ (by omega), hlen, Nat.sub_self,
      List.drop_eq_getElem_cons hlt, List.set_cons_zero, List.map_append, List.append_assoc]
    rfl

theorem map_range_eq_zipWith {α β γ : Type} (d : α) (e : β) (h : α → β → γ) (l : List α)
    (os : List β) (hlen : os.length = l.length) :
    (List.range l.length).map (fun i => h (l.getD i d) (os.getD i e)) = List.zipWith h l os := by
  apply List.ext_getElem
  · simp [hlen]
  · intro n h1 h2
    have hn : n < l.length := by simpa using h1
    have hn' : n < os.length := by omega
    simp [List.getElem?_eq_getElem hn, List.getElem?_eq_getElem hn']

theorem mapM_eq_some_map {α β : Type} (f : α → Option β) (g : α → β) (l : List α)
    (h : ∀ x ∈ l, f x = some (g x)) : l.mapM f = some (l.map g) := by
  induction l with
  | nil => rw [List.mapM_nil]; rfl
  | cons x xs ih =>
    rw [List.mapM_cons, h x (List.mem_cons_self x xs),
      ih (fun y hy => h y (List.mem_cons_of_mem x hy))]
    rfl

/-- The update loop of the relaxation writes, at every position, the blend of
the old vorticity and the field at that position. -/
theorem relax_fold (sqrtf : K → K) (fdt : K) (omegas : List (bsv_V3f K))
    (input : List (cvtx_P3D K)) (hlen : omegas.length = input.length) :
    (List.range input.length).foldl (relax_step sqrtf fdt omegas) input
      = List.zipWith (fun p omega =>
          ({ p with vorticity := relax_nvort sqrtf fdt p.vorticity omega } : cvtx_P3D K))
        input omegas := by
  have h := range_foldl_set (default : cvtx_P3D K)
    (fun i p => { p with vorticity := relax_nvort sqrtf fdt p.vorticity (omegas.getD i default) })
    input input.length (le_refl _)
  rw [List.drop_length, List.append_nil] at h
  rw [← map_range_eq_zipWith default default
    (fun p omega => ({ p with vorticity := relax_nvort sqrtf fdt p.vorticity omega } : cvtx_P3D K))
    input omegas hlen, ← h]
  rfl

/-- On the CPU path `cvtx_P3D_M2M_vort` is the list of the values of
`cvtx_P3D_M2S_vort`. -/
theorem M2M_vort_cpu (sqrtf : K → K) (CVTX_USING_OPENCL : Bool)
    (gpu : List (cvtx_P3D K) → List (bsv_V3f K) → cvtx_VortFunc K → K
      → Int × List (bsv_V3f K))
    (array_start : List (cvtx_P3D K)) (mes_start : List (bsv_V3f K))
    (kernel : cvtx_VortFunc K) (sigma : K)
    (hcpu : CVTX_USING_OPENCL = false ∨ (array_start.length : Int) < 256
      ∨ (mes_start.length : Int) < 256 ∨ kernel.cl_kernel_name_ext = ""
      ∨ (gpu array_start mes_start kernel sigma).1 ≠ 0) :
    cvtx_P3D_M2M_vort sqrtf CVTX_USING_OPENCL gpu array_start mes_start kernel sigma
      = mes_start.mapM (fun mes_point =>
          cvtx_P3D_M2S_vort sqrtf array_start mes_point kernel sigma) := by
  unfold cvtx_P3D_M2M_vort cpu_brute_force_P3D_M2M_vort
  rw [if_neg]
  rintro ⟨hu, hn⟩
  rcases hcpu with h | h
  · rw [h] at hu; exact Bool.false_ne_true hu
  · exact hn h

theorem relax_nvort_self (sqrtf : K → K) (fdt : K) (v : bsv_V3f K)
    (hsqrt : ∀ x, 0 ≤ x → sqrtf x = 0 → x = 0) : relax_nvort sqrtf fdt v v = v := by
  unfold relax_nvort
  simp only []
  by_cases h : bsv_V3f_abs sqrtf v = 0
  · rw [if_neg (not_not.mpr h)]
    have hs : v.x0 * v.x0 + v.x1 * v.x1 + v.x2 * v.x2 = 0 :=
      hsqrt _ (by nlinarith [mul_self_nonneg v.x0, mul_self_nonneg v.x1,
        mul_self_nonneg v.x2]) h
    have h0 : v.x0 = 0 := by nlinarith [mul_self_nonneg v.x0, mul_self_nonneg v.x1, mul_self_nonneg v.x2]
    have h1 : v.x1 = 0 := by nlinarith [mul_self_nonneg v.x0, mul_self_nonneg v.x1, mul_self_nonneg v.x2]
    have h2 : v.x2 = 0 := by nlinarith [mul_self_nonneg v.x0, mul_self_nonneg v.x1, mul_self_nonneg v.x2]
    ext <;> simp [bsv_V3f_zero, h0, h1, h2]
  · rw [if_pos h, div_self h]
    ext <;> simp only [bsv_V3f_mult, bsv_V3f_plus] <;> ring

end RelaxLemmas

section RelaxClaims

variable [LinearOrderedField K]

theorem sample_sqrtf_zero : sample_sqrtf 0 = 0 := by
  simp [sample_sqrtf]

theorem sample_sqrtf_eq_zero (x : ℚ) (hx : 0 ≤ x) (h : sample_sqrtf x = 0) : x = 0 := by
  unfold sample_sqrtf at h
  have hden : (Nat.sqrt x.den : ℚ) ≠ 0 := by
    have h1 : x.den ≠ 0 := x.den_nz
    have h2 : Nat.sqrt x.den ≠ 0 := fun h0 => h1 (Nat.sqrt_eq_zero.mp h0)
    exact_mod_cast h2
  rw [div_eq_zero_iff] at h
  rcases h with h | h
  · have h3 : Nat.sqrt x.num.toNat = 0 := by exact_mod_cast h
    have h4 : x.num.toNat = 0 := Nat.sqrt_eq_zero.mp h3
    have h5 : 0 ≤ x.num := Rat.num_nonneg.mpr hx
    have h6 : x.num = 0 := by omega
    exact Rat.zero_of_num_zero h6
  · exact absurd h hden

/-- C14. Many-to-many dispatch and fallback: for each of `cvtx_P3D_M2M_vel`,
`cvtx_P3D_M2M_dvort`, `cvtx_P3D_M2M_visc_dvort` and `cvtx_P3D_M2M_vort`, when
the build has no OpenCL backend, or the source count is below 256, or the
target count is below 256, or the kernel's OpenCL name is empty, or the OpenCL
entry point returns a non-zero status, every entry of the result is the
many-to-single operator applied to all sources and the corresponding target:
the result of the CPU path. -/
theorem M2M_fallback_is_cpu (sqrtf : K → K) (CVTX_USING_OPENCL : Bool)
    (opencl_vel opencl_vort :
      List (cvtx_P3D K) → List (bsv_V3f K) → cvtx_VortFunc K → K → Int × List (bsv_V3f K))
    (opencl_dvort :
      List (cvtx_P3D K) → List (cvtx_P3D K) → cvtx_VortFunc K → K → Int × List (bsv_V3f K))
    (opencl_visc_dvort :
      List (cvtx_P3D K) → List (cvtx_P3D K) → cvtx_VortFunc K → K → K
        → Int × List (bsv_V3f K))
    (array_start : List (cvtx_P3D K)) (mes_start : List (bsv_V3f K))
    (induced_start : List (cvtx_P3D K)) (kernel : cvtx_VortFunc K)
    (regularisation_radius kinematic_visc : K) :
    ((CVTX_USING_OPENCL = false ∨ (array_start.length : Int) < 256
        ∨ (mes_start.length : Int) < 256 ∨ kernel.cl_kernel_name_ext = ""
        ∨ (opencl_vel array_start mes_start kernel regularisation_radius).1 ≠ 0) →
      cvtx_P3D_M2M_vel sqrtf CVTX_USING_OPENCL opencl_vel array_start mes_start kernel
          regularisation_radius
        = mes_start.map (fun mes_point =>
            cvtx_P3D_M2S_vel sqrtf array_start mes_point kernel regularisation_radius))
    ∧ ((CVTX_USING_OPENCL = false ∨ (array_start.length : Int) < 256
        ∨ (induced_start.length : Int) < 256 ∨ kernel.cl_kernel_name_ext = ""
        ∨ (opencl_dvort array_start induced_start kernel regularisation_radius).1 ≠ 0) →
      cvtx_P3D_M2M_dvort sqrtf CVTX_USING_OPENCL opencl_dvort array_start induced_start
          kernel regularisation_radius
        = induced_start.map (fun induced_particle =>
            cvtx_P3D_M2S_dvort sqrtf array_start induced_particle kernel
              regularisation_radius))
    ∧ ((CVTX_USING_OPENCL = false ∨ (array_start.length : Int) < 256
        ∨ (induced_start.length : Int) < 256 ∨ kernel.cl_kernel_name_ext = ""
        ∨ (opencl_visc_dvort array_start induced_start kernel regularisation_radius
            kinematic_visc).1 ≠ 0) →
      cvtx_P3D_M2M_visc_dvort sqrtf CVTX_USING_OPENCL opencl_visc_dvort array_start
          induced_start kernel regularisation_radius kinematic_visc
        = induced_start.mapM (fun induced_particle =>
            cvtx_P3D_M2S_visc_dvort sqrtf array_start induced_particle kernel
              regularisation_radius kinematic_visc))
    ∧ ((CVTX_USING_OPENCL = false ∨ (array_start.length : Int) < 256
        ∨ (mes_start.length : Int) < 256 ∨ kernel.cl_kernel_name_ext = ""
        ∨ (opencl_vort array_start mes_start kernel regularisation_radius).1 ≠ 0) →
      cvtx_P3D_M2M_vort sqrtf CVTX_USING_OPENCL opencl_vort array_start mes_start kernel
          regularisation_radius
        = mes_start.mapM (fun mes_point =>
            cvtx_P3D_M2S_vort sqrtf array_start mes_point kernel regularisation_radius)) := by
  refine ⟨?_, ?_, ?_, ?_⟩
  · intro hcpu
    unfold cvtx_P3D_M2M_vel cpu_brute_force_P3D_M2M_vel
    rw [if_neg]
    rintro ⟨hu, hn⟩
    rcases hcpu with h | h
    · rw [h] at hu; exact Bool.false_ne_true hu
    · exact hn h
  · intro hcpu
    unfold cvtx_P3D_M2M_dvort cpu_brute_force_P3D_M2M_dvort
    rw [if_neg]
    rintro ⟨hu, hn⟩
    rcases hcpu with h | h
    · rw [h] at hu; exact Bool.false_ne_true hu
    · exact hn h
  · intro hcpu
    unfold cvtx_P3D_M2M_visc_dvort cpu_brute_force_P3D_M2M_visc_dvort
    rw [if_neg]
    rintro ⟨hu, hn⟩
    rcases hcpu with h | h
    · rw [h] at hu; exact Bool.false_ne_true hu
    · exact hn h
  · intro hcpu
    unfold cvtx_P3D_M2M_vort cpu_brute_force_P3D_M2M_vort
    rw [if_neg]
    rintro ⟨hu, hn⟩
    rcases hcpu with h | h
    · rw [h] at hu; exact Bool.false_ne_true hu
    · exact hn h

theorem M2M_fallback_is_cpu_witness :
    cvtx_P3D_M2M_vel sample_sqrtf true sample_opencl_points sample_five
        [⟨3, 4, 0⟩, ⟨0, 0, 0⟩] sample_kernel 2
      = [⟨3, 4, 0⟩, ⟨0, 0, 0⟩].map (fun mes_point =>
          cvtx_P3D_M2S_vel sample_sqrtf sample_five mes_point sample_kernel 2)
    ∧ cvtx_P3D_M2M_dvort sample_sqrtf true sample_opencl_particles sample_five sample_ten
        sample_kernel 2
      = sample_ten.map (fun induced_particle =>
          cvtx_P3D_M2S_dvort sample_sqrtf sample_five induced_particle sample_kernel 2)
    ∧ cvtx_P3D_M2M_visc_dvort sample_sqrtf true sample_opencl_visc sample_five sample_ten
        sample_kernel 2 5
      = sample_ten.mapM (fun induced_particle =>
          cvtx_P3D_M2S_visc_dvort sample_sqrtf sample_five induced_particle sample_kernel 2 5)
    ∧ cvtx_P3D_M2M_vort sample_sqrtf true sample_opencl_points sample_five
        [⟨3, 4, 0⟩, ⟨0, 0, 0⟩] sample_kernel 2
      = [⟨3, 4, 0⟩, ⟨0, 0, 0⟩].mapM (fun mes_point =>
          cvtx_P3D_M2S_vort sample_sqrtf sample_five mes_point sample_kernel 2) :=
  ⟨(M2M_fallback_is_cpu sample_sqrtf true sample_opencl_points sample_opencl_points
      sample_opencl_particles sample_opencl_visc sample_five [⟨3, 4, 0⟩, ⟨0, 0, 0⟩] sample_ten
      sample_kernel 2 5).1 (Or.inr (Or.inl (by decide))),
    (M2M_fallback_is_cpu sample_sqrtf true sample_opencl_points sample_opencl_points
      sample_opencl_particles sample_opencl_visc sample_five [⟨3, 4, 0⟩, ⟨0, 0, 0⟩] sample_ten
      sample_kernel 2 5).2.1 (Or.inr (Or.inr (Or.inr (Or.inl rfl)))),
    (M2M_fallback_is_cpu sample_sqrtf true sample_opencl_points sample_opencl_points
      sample_opencl_particles sample_opencl_visc sample_five [⟨3, 4, 0⟩, ⟨0, 0, 0⟩] sample_ten
      sample_kernel 2 5).2.2.1 (Or.inr (Or.inr (Or.inl (by decide)))),
    (M2M_fallback_is_cpu sample_sqrtf true sample_opencl_points sample_opencl_points
      sample_opencl_particles sample_opencl_visc sample_five [⟨3, 4, 0⟩, ⟨0, 0, 0⟩] sample_ten
      sample_kernel 2 5).2.2.2 (Or.inr (Or.inl (by decide)))⟩

theorem relax_nvort_eq (sqrtf : K → K) (fdt : K) (ovort omega : bsv_V3f K) :
    relax_nvort sqrtf fdt ovort omega
      = if bsv_V3f_abs sqrtf omega = 0 then bsv_V3f_zero
        else bsv_V3f_plus (bsv_V3f_mult ovort (1 - fdt))
          (bsv_V3f_mult omega (fdt * (bsv_V3f_abs sqrtf ovort / bsv_V3f_abs sqrtf omega))) := by
  unfold relax_nvort
  simp only []
  by_cases h : bsv_V3f_abs sqrtf omega = 0
  · rw [if_neg (not_not.mpr h), if_pos h]
  · rw [if_pos h, if_neg h, mul_comm fdt]

/-- C15. Pedrizzetti relaxation on the CPU path: the call returns, and the field
`omega_i` is `cvtx_P3D_M2S_vort` over the whole set, with the vorticities from
before the update, at the position of particle `i`; afterwards particle `i` has
vorticity `(1 - fdt) * old_i + fdt * omega_i * (|old_i| / |omega_i|)` when
`|omega_i|` is not zero and the zero vector when it is zero, and its position
and volume are unchanged. -/
theorem relaxation_result (sqrtf : K → K) (CVTX_USING_OPENCL : Bool)
    (opencl_vort :
      List (cvtx_P3D K) → List (bsv_V3f K) → cvtx_VortFunc K → K → Int × List (bsv_V3f K))
    (input : List (cvtx_P3D K)) (fdt : K) (kernel : cvtx_VortFunc K) (sigma : K)
    (hcpu : CVTX_USING_OPENCL = false ∨ (input.length : Int) < 256
      ∨ kernel.cl_kernel_name_ext = ""
      ∨ (opencl_vort input (input.map fun p => p.coord) kernel sigma).1 ≠ 0) :
    ∃ omegas : List (bsv_V3f K),
      input.mapM (fun p => cvtx_P3D_M2S_vort sqrtf input p.coord kernel sigma) = some omegas
      ∧ cvtx_P3D_pedrizzetti_relaxation sqrtf CVTX_USING_OPENCL opencl_vort input fdt kernel
          sigma
        = some (List.zipWith (fun p omega =>
            ({ coord := p.coord
               vorticity :=
                 if bsv_V3f_abs sqrtf omega = 0 then bsv_V3f_zero
                 else bsv_V3f_plus (bsv_V3f_mult p.vorticity (1 - fdt))
                   (bsv_V3f_mult omega
                     (fdt * (bsv_V3f_abs sqrtf p.vorticity / bsv_V3f_abs sqrtf omega)))
               volume := p.volume } : cvtx_P3D K)) input omegas) := by
  have hval : ∀ m ∈ input.map (fun p => p.coord),
      cvtx_P3D_M2S_vort sqrtf input m kernel sigma
        = some ((cvtx_P3D_M2S_vort sqrtf input m kernel sigma).getD bsv_V3f_zero) := by
    intro m hm
    have hN : input ≠ [] := by
      rintro rfl
      simp at hm
    rw [M2S_vort_value sqrtf input m kernel sigma hN]
    rfl
  have hcpu' : CVTX_USING_OPENCL = false ∨ (input.length : Int) < 256
      ∨ ((input.map fun p => p.coord).length : Int) < 256 ∨ kernel.cl_kernel_name_ext = ""
      ∨ (opencl_vort input (input.map fun p => p.coord) kernel sigma).1 ≠ 0 := by
    rcases hcpu with h | h | h | h
    · exact Or.inl h
    · exact Or.inr (Or.inl h)
    · exact Or.inr (Or.inr (Or.inr (Or.inl h)))
    · exact Or.inr (Or.inr (Or.inr (Or.inr h)))
  refine ⟨input.map (fun p =>
    (cvtx_P3D_M2S_vort sqrtf input p.coord kernel sigma).getD bsv_V3f_zero), ?_, ?_⟩
  · exact mapM_eq_some_map _ _ input
      (fun p hp => hval p.coord (List.mem_map_of_mem _ hp))
  · unfold cvtx_P3D_pedrizzetti_relaxation
    simp only []
    rw [M2M_vort_cpu sqrtf CVTX_USING_OPENCL opencl_vort input _ kernel sigma hcpu',
      mapM_eq_some_map _ _ _ hval]
    simp only [List.map_map]
    rw [relax_fold sqrtf fdt _ input (by simp)]
    congr 1
    simp only [relax_nvort_eq]
    rfl

end RelaxClaims

section RelaxClaims2

variable [LinearOrderedField K]

theorem relaxation_result_witness :
    ∃ omegas : List (bsv_V3f ℚ),
      [sample_particle_at 0, sample_particle_at 1].mapM
          (fun p => cvtx_P3D_M2S_vort sample_sqrtf [sample_particle_at 0, sample_particle_at 1]
            p.coord sample_kernel_field 1) = some omegas
      ∧ cvtx_P3D_pedrizzetti_relaxation sample_sqrtf true sample_opencl_points
          [sample_particle_at 0, sample_particle_at 1] (1 / 2) sample_kernel_field 1
        = some (List.zipWith (fun p omega =>
            ({ coord := p.coord
               vorticity :=
                 if bsv_V3f_abs sample_sqrtf omega = 0 then bsv_V3f_zero
                 else bsv_V3f_plus (bsv_V3f_mult p.vorticity (1 - 1 / 2))
                   (bsv_V3f_mult omega
                     (1 / 2 * (bsv_V3f_abs sample_sqrtf p.vorticity
                       / bsv_V3f_abs sample_sqrtf omega)))
               volume := p.volume } : cvtx_P3D ℚ))
            [sample_particle_at 0, sample_particle_at 1] omegas) :=
  relaxation_result sample_sqrtf true sample_opencl_points
    [sample_particle_at 0, sample_particle_at 1] (1 / 2) sample_kernel_field 1
    (Or.inr (Or.inl (by decide)))

theorem zipWith_map_self {α β : Type} (f : α → β → α) (g : α → β) (l : List α)
    (h : ∀ x ∈ l, f x (g x) = x) : List.zipWith f l (l.map g) = l := by
  induction l with
  | nil => rfl
  | cons x xs ih =>
    rw [List.map_cons, List.zipWith_cons_cons, h x (List.mem_cons_self x xs),
      ih (fun y hy => h y (List.mem_cons_of_mem x hy))]

/-- C16. Relaxation fixed point: if the field that the relaxation reconstructs at
the position of every particle is that particle's own vorticity, then
`cvtx_P3D_pedrizzetti_relaxation` returns the particles unchanged, for every
`fdt` (the square root taken as zero only at zero). -/
theorem relaxation_fixed_point (sqrtf : K → K) (CVTX_USING_OPENCL : Bool)
    (opencl_vort :
      List (cvtx_P3D K) → List (bsv_V3f K) → cvtx_VortFunc K → K → Int × List (bsv_V3f K))
    (input : List (cvtx_P3D K)) (fdt : K) (kernel : cvtx_VortFunc K) (sigma : K)
    (hsqrt : ∀ x, 0 ≤ x → sqrtf x = 0 → x = 0)
    (homega : cvtx_P3D_M2M_vort sqrtf CVTX_USING_OPENCL opencl_vort input
        (input.map fun p => p.coord) kernel sigma
      = some (input.map fun p => p.vorticity)) :
    cvtx_P3D_pedrizzetti_relaxation sqrtf CVTX_USING_OPENCL opencl_vort input fdt kernel
      sigma = some input := by
  unfold cvtx_P3D_pedrizzetti_relaxation
  simp only []
  rw [homega]
  simp only []
  rw [relax_fold sqrtf fdt _ input (by simp)]
  congr 1
  apply zipWith_map_self
  intro p _
  rw [relax_nvort_self sqrtf fdt p.vorticity hsqrt]

theorem relaxation_fixed_point_witness :
    cvtx_P3D_pedrizzetti_relaxation sample_sqrtf false sample_opencl_points
        [sample_particle_at 0, sample_particle_at 10] (1 / 2) sample_kernel_field 1
      = some [sample_particle_at 0, sample_particle_at 10] :=
  relaxation_fixed_point sample_sqrtf false sample_opencl_points
    [sample_particle_at 0, sample_particle_at 10] (1 / 2) sample_kernel_field 1
    sample_sqrtf_eq_zero
    (by
      rw [M2M_vort_cpu _ _ _ _ _ _ _ (Or.inl rfl)]
      simp only [List.map_cons, List.map_nil, List.mapM_cons, List.mapM_nil]
      rw [M2S_vort_value _ _ _ _ _ (by simp), M2S_vort_value _ _ _ _ _ (by simp)]
      simp [vort_within_cutoff, bsv_V3f_minus, sample_particle_at, sample_kernel_field,
        bsv_V3f_mult, bsv_V3f_div, CVTX_PI_F]
      norm_num)

end RelaxClaims2

section SelfTermClaims

variable [LinearOrderedField K]

/-- `cvtx_P3D_M2S_vort` on a non-empty array, as a sum of the values of
`cvtx_P3D_S2S_vort` over the sources inside the cutoff. -/
theorem M2S_vort_sum_within (sqrtf : K → K) (array_start : List (cvtx_P3D K))
    (mes_point : bsv_V3f K) (kernel : cvtx_VortFunc K) (sigma : K) (hN : array_start ≠ []) :
    cvtx_P3D_M2S_vort sqrtf array_start mes_point kernel sigma
      = some ((array_start.filter (fun p =>
            vort_within_cutoff (5 * sigma) (bsv_V3f_minus p.coord mes_point))).map
          (fun p => cvtx_P3D_S2S_vort sqrtf p mes_point kernel sigma)).sum := by
  rw [M2S_vort_value sqrtf array_start mes_point kernel sigma hN, ← sum_map_div]
  congr 2
  apply List.map_congr_left
  intro p _
  unfold cvtx_P3D_S2S_vort
  ext <;> simp [bsv_V3f_mult, bsv_V3f_div, div_eq_mul_inv, mul_assoc]

/-- C18 (as amended). Self-term of the relaxation field: for a positive
regularisation radius `sigma`, a particle's own contribution to the field at
its own position is `cvtx_P3D_S2S_vort(p, p.coord)
= p.vorticity * zeta(0) / (4 * pi * sigma^3)`, and `cvtx_P3D_M2S_vort` evaluated
at `p.coord` over a set that holds `p` includes that term in full: it is the
self-term plus the terms of the other sources inside the cutoff. -/
theorem S2S_vort_self_term (sqrtf : K → K) (p : cvtx_P3D K) (others : List (cvtx_P3D K))
    (kernel : cvtx_VortFunc K) (sigma : K) (hsigma : 0 < sigma) (hsqrt : sqrtf 0 = 0) :
    cvtx_P3D_S2S_vort sqrtf p p.coord kernel sigma
        = bsv_V3f_div (bsv_V3f_mult p.vorticity (kernel.zeta_3D 0))
            (4 * CVTX_PI_F * sigma ^ 3)
    ∧ cvtx_P3D_M2S_vort sqrtf (p :: others) p.coord kernel sigma
        = some (cvtx_P3D_S2S_vort sqrtf p p.coord kernel sigma
            + ((others.filter (fun q =>
                decide (|q.coord.x0 - p.coord.x0| < 5 * sigma
                  ∧ |q.coord.x1 - p.coord.x1| < 5 * sigma
                  ∧ |q.coord.x2 - p.coord.x2| < 5 * sigma))).map
              (fun q => cvtx_P3D_S2S_vort sqrtf q p.coord kernel sigma)).sum) := by
  constructor
  · have habs : bsv_V3f_abs sqrtf (bsv_V3f_minus p.coord p.coord) = 0 := by
      simp [bsv_V3f_abs, bsv_V3f_minus, hsqrt]
    unfold cvtx_P3D_S2S_vort
    simp only [habs, zero_div]
    have hd : 4 * CVTX_PI_F * sigma * sigma * sigma = 4 * CVTX_PI_F * sigma ^ 3 := by ring
    rw [hd]
    ext <;> simp only [bsv_V3f_mult, bsv_V3f_div] <;> ring
  · rw [M2S_vort_sum_within sqrtf (p :: others) p.coord kernel sigma (by simp)]
    have hp : vort_within_cutoff (5 * sigma) (bsv_V3f_minus p.coord p.coord) = true := by
      have h5 : 0 < 5 * sigma := by linarith
      simp [vort_within_cutoff, bsv_V3f_minus, h5]
    rw [List.filter_cons, if_pos hp, List.map_cons, List.sum_cons]
    rfl

theorem S2S_vort_self_term_witness :
    cvtx_P3D_S2S_vort sample_sqrtf (sample_particle_at 0) (sample_particle_at 0).coord
          sample_kernel 1
        = bsv_V3f_div (bsv_V3f_mult (sample_particle_at 0).vorticity (sample_kernel.zeta_3D 0))
            (4 * CVTX_PI_F * 1 ^ 3)
    ∧ cvtx_P3D_M2S_vort sample_sqrtf (sample_particle_at 0 :: [sample_particle_at 1])
          (sample_particle_at 0).coord sample_kernel 1
        = some (cvtx_P3D_S2S_vort sample_sqrtf (sample_particle_at 0)
              (sample_particle_at 0).coord sample_kernel 1
            + (([sample_particle_at 1].filter (fun q =>
                decide (|q.coord.x0 - (sample_particle_at 0).coord.x0| < 5 * 1
                  ∧ |q.coord.x1 - (sample_particle_at 0).coord.x1| < 5 * 1
                  ∧ |q.coord.x2 - (sample_particle_at 0).coord.x2| < 5 * 1))).map
              (fun q => cvtx_P3D_S2S_vort sample_sqrtf q (sample_particle_at 0).coord
                sample_kernel 1)).sum) :=
  S2S_vort_self_term sample_sqrtf (sample_particle_at 0) [sample_particle_at 1] sample_kernel 1
    (by norm_num) sample_sqrtf_zero

/-- C18 (counterexample). A particle of vorticity `(1, 0, 0)`, `sigma = 1`,
`zeta` constant 1: `cvtx_P3D_S2S_vort` at the particle's own position is
`(1 / (4 * pi), 0, 0)`, not the zero vector. -/
theorem S2S_vort_self_term_not_zero :
    cvtx_P3D_S2S_vort sample_sqrtf (sample_particle_at 0) (sample_particle_at 0).coord
      sample_kernel 1 ≠ bsv_V3f_zero := by
  intro h
  have h0 := congrArg bsv_V3f.x0 h
  simp [cvtx_P3D_S2S_vort, sample_particle_at, sample_kernel, bsv_V3f_mult, CVTX_PI_F,
    bsv_V3f_zero] at h0

end SelfTermClaims

section CullClaims2

variable [LinearOrderedField K]

theorem cull_after_none_kept (io_arr : List (cvtx_P3D K)) (strs : List K) (thr : K)
    (maxk : Int) (m : Nat)
    (h : ∀ i, i < m → ¬ (strs.getD i 0 > thr ∧ (i : Int) < maxk)) :
    (cull_after io_arr strs thr maxk m).io_arr = io_arr
    ∧ (cull_after io_arr strs thr maxk m).j = 0 := by
  induction m with
  | zero => exact ⟨rfl, rfl⟩
  | succ m ih =>
    obtain ⟨h1, h2⟩ := ih (fun i hi => h i (Nat.lt_succ_of_lt hi))
    rw [cull_after_succ]
    simp only [cull_step, if_neg (h m (Nat.lt_succ_self m))]
    exact ⟨h1, h2⟩

/-- C20. Zero-survivor culling: if no particle has a strength strictly greater
than the threshold, or `max_keepable` is 0 (or negative),
`cvtx_remove_particles_under_str_threshold` returns 0 and leaves every element
of the array unchanged: the quotient of the deficit by zero is added to no
particle. -/
theorem cull_zero_survivors (io_arr : List (cvtx_P3D K)) (strs : List K)
    (n_inpt_partices : Int) (min_keepable_str : K) (max_keepable : Int)
    (h : (∀ i, i < n_inpt_partices.toNat → strs.getD i 0 ≤ min_keepable_str)
      ∨ max_keepable ≤ 0) :
    cvtx_remove_particles_under_str_threshold io_arr strs n_inpt_partices min_keepable_str
      max_keepable = (0, io_arr) := by
  have hnone : ∀ i, i < n_inpt_partices.toNat →
      ¬ (strs.getD i 0 > min_keepable_str ∧ (i : Int) < max_keepable) := by
    intro i hi hk
    rcases h with h | h
    · exact absurd hk.1 (not_lt.mpr (h i hi))
    · have := hk.2
      omega
  obtain ⟨h1, h2⟩ := cull_after_none_kept io_arr strs min_keepable_str max_keepable
    n_inpt_partices.toNat hnone
  unfold cull_after at h1 h2
  unfold cvtx_remove_particles_under_str_threshold
  simp only []
  rw [h2, h1]
  rfl

theorem cull_zero_survivors_witness :
    cvtx_remove_particles_under_str_threshold sample_five sample_five_strs 5 100 5
        = (0, sample_five)
    ∧ cvtx_remove_particles_under_str_threshold sample_five sample_five_strs 5 0 0
        = (0, sample_five) :=
  ⟨cull_zero_survivors sample_five sample_five_strs 5 100 5
      (Or.inl (by
        intro i hi
        have hi' : i < 5 := hi
        interval_cases i <;> simp [sample_five_strs] <;> norm_num)),
    cull_zero_survivors sample_five sample_five_strs 5 0 0 (Or.inr (le_refl 0))⟩

end CullClaims2

section MinCornerLemmas

variable [LinearOrderedField K]

theorem minmax_fold_le (rest : List (cvtx_P3D K)) (init : bsv_V3f K) :
    ((rest.foldl (fun m q => (⟨min m.x0 q.coord.x0, min m.x1 q.coord.x1,
        min m.x2 q.coord.x2⟩ : bsv_V3f K)) init).x0 ≤ init.x0
      ∧ (rest.foldl (fun m q => (⟨min m.x0 q.coord.x0, min m.x1 q.coord.x1,
        min m.x2 q.coord.x2⟩ : bsv_V3f K)) init).x1 ≤ init.x1
      ∧ (rest.foldl (fun m q => (⟨min m.x0 q.coord.x0, min m.x1 q.coord.x1,
        min m.x2 q.coord.x2⟩ : bsv_V3f K)) init).x2 ≤ init.x2)
    ∧ ∀ p ∈ rest,
      (rest.foldl (fun m q => (⟨min m.x0 q.coord.x0, min m.x1 q.coord.x1,
        min m.x2 q.coord.x2⟩ : bsv_V3f K)) init).x0 ≤ p.coord.x0
      ∧ (rest.foldl (fun m q => (⟨min m.x0 q.coord.x0, min m.x1 q.coord.x1,
        min m.x2 q.coord.x2⟩ : bsv_V3f K)) init).x1 ≤ p.coord.x1
      ∧ (rest.foldl (fun m q => (⟨min m.x0 q.coord.x0, min m.x1 q.coord.x1,
        min m.x2 q.coord.x2⟩ : bsv_V3f K)) init).x2 ≤ p.coord.x2 := by
  induction rest generalizing init with
  | nil => exact ⟨⟨le_refl _, le_refl _, le_refl _⟩, fun p hp => absurd hp (List.not_mem_nil p)⟩
  | cons x xs ih =>
    rw [List.foldl_cons]
    obtain ⟨⟨h0, h1, h2⟩, hall⟩ := ih ⟨min init.x0 x.coord.x0, min init.x1 x.coord.x1,
      min init.x2 x.coord.x2⟩
    refine ⟨⟨le_trans h0 (min_le_left _ _), le_trans h1 (min_le_left _ _),
      le_trans h2 (min_le_left _ _)⟩, ?_⟩
    intro p hp
    rcases List.mem_cons.mp hp with rfl | hp
    · exact ⟨le_trans h0 (min_le_right _ _), le_trans h1 (min_le_right _ _),
        le_trans h2 (min_le_right _ _)⟩
    · exact hall p hp

/-- The corner returned by `minmax_xyz_posn` is below every particle on every
axis. -/
theorem minmax_xyz_posn_le (input : List (cvtx_P3D K)) (p : cvtx_P3D K) (hp : p ∈ input) :
    (minmax_xyz_posn input).x0 ≤ p.coord.x0 ∧ (minmax_xyz_posn input).x1 ≤ p.coord.x1
      ∧ (minmax_xyz_posn input).x2 ≤ p.coord.x2 := by
  cases input with
  | nil => exact absurd hp (List.not_mem_nil p)
  | cons x xs =>
    unfold minmax_xyz_posn
    obtain ⟨hinit, hall⟩ := minmax_fold_le xs x.coord
    rcases List.mem_cons.mp hp with rfl | hp
    · exact hinit
    · exact hall p hp

end MinCornerLemmas

section OriginLemmas

variable [LinearOrderedField K] [FloorRing K]

theorem roundf_ge (x : K) : x - 1 / 2 ≤ (roundf x : K) := by
  unfold roundf
  by_cases h : 0 ≤ x
  · rw [if_pos h]
    have := Int.sub_one_lt_floor (x + 1 / 2)
    linarith
  · rw [if_neg h]
    exact Int.le_ceil _

/-- The margin on one axis: with the origin of `grid_origin`, the index of the
nearest cell of a coordinate `x` that is not below the minimum `m` is at least
`grid_radius + 4`. -/
theorem axis_margin (x m mu c : K) (r : Int) (hc : 0 < c) (hm : m ≤ x) :
    r + 4 ≤ roundf ((x - (mu - ((roundf ((mu - (m - 1 * ((r : K) * c))) / c) : K) + 5) * c))
      * (1 / c)) := by
  have hd : (mu - (m - 1 * ((r : K) * c))) / c = (mu - m) / c + r := by
    field_simp
    ring
  rw [hd]
  have hR := roundf_ge ((mu - m) / c + (r : K))
  generalize (roundf ((mu - m) / c + (r : K)) : K) = R at *
  have hy : (x - (mu - (R + 5) * c)) * (1 / c) = (x - mu) / c + R + 5 := by
    field_simp
    ring
  rw [hy]
  have hY := roundf_ge ((x - mu) / c + R + 5)
  have hxm : 0 ≤ (x - m) / c := div_nonneg (sub_nonneg.mpr hm) (le_of_lt hc)
  have hsplit : (x - m) / c = (x - mu) / c + (mu - m) / c := by
    field_simp
  have hfin : ((r + 4 : Int) : K) ≤ (roundf ((x - mu) / c + R + 5) : K) := by
    push_cast
    linarith
  exact_mod_cast hfin

end OriginLemmas

section OriginClaims

variable [LinearOrderedField K] [FloorRing K]

/-- C21. Grid-origin margin: with the origin that `cvtx_P3D_redistribute_on_grid`
computes and a positive cell size, for every input particle and every axis the
index of the nearest key minus `grid_radius` is at least 4, so every key of the
particle's deposit neighbourhood has non-negative components (at least 4): no
key underflows. -/
theorem grid_origin_margin (input : List (cvtx_P3D K)) (grid_radius : Int)
    (grid_density : K) (p : cvtx_P3D K) (hp : p ∈ input) (hcell : 0 < grid_density) :
    4 ≤ (UIntKey96.nearest_key_min p.coord (1 / grid_density)
          (grid_origin input grid_radius grid_density)).kx - grid_radius
    ∧ 4 ≤ (UIntKey96.nearest_key_min p.coord (1 / grid_density)
          (grid_origin input grid_radius grid_density)).ky - grid_radius
    ∧ 4 ≤ (UIntKey96.nearest_key_min p.coord (1 / grid_density)
          (grid_origin input grid_radius grid_density)).kz - grid_radius
    ∧ ∀ k ∈ (UIntKey96.nearest_key_min p.coord (1 / grid_density)
          (grid_origin input grid_radius grid_density)).nearby_keys grid_radius,
        4 ≤ k.kx ∧ 4 ≤ k.ky ∧ 4 ≤ k.kz := by
  obtain ⟨h0, h1, h2⟩ := minmax_xyz_posn_le input p hp
  have hx := axis_margin p.coord.x0 (minmax_xyz_posn input).x0 (mean_xyz_posn input).x0
    grid_density grid_radius hcell h0
  have hy := axis_margin p.coord.x1 (minmax_xyz_posn input).x1 (mean_xyz_posn input).x1
    grid_density grid_radius hcell h1
  have hz := axis_margin p.coord.x2 (minmax_xyz_posn input).x2 (mean_xyz_posn input).x2
    grid_density grid_radius hcell h2
  have hkx : grid_radius + 4 ≤ (UIntKey96.nearest_key_min p.coord (1 / grid_density)
      (grid_origin input grid_radius grid_density)).kx := hx
  have hky : grid_radius + 4 ≤ (UIntKey96.nearest_key_min p.coord (1 / grid_density)
      (grid_origin input grid_radius grid_density)).ky := hy
  have hkz : grid_radius + 4 ≤ (UIntKey96.nearest_key_min p.coord (1 / grid_density)
      (grid_origin input grid_radius grid_density)).kz := hz
  refine ⟨by omega, by omega, by omega, ?_⟩
  intro k hk
  unfold UIntKey96.nearby_keys at hk
  simp only [List.mem_flatMap, List.mem_map] at hk
  obtain ⟨dx, hdx, dy, hdy, dz, hdz, rfl⟩ := hk
  have hoff : ∀ d ∈ UIntKey96.axis_offsets grid_radius, -grid_radius ≤ d := by
    intro d hd
    unfold UIntKey96.axis_offsets at hd
    simp only [List.mem_map, List.mem_range] at hd
    obtain ⟨i, hi, rfl⟩ := hd
    simp only [List.bind_eq_flatMap, List.pure_def, List.mem_flatMap, List.mem_singleton,
      List.mem_range] at hi
    obtain ⟨j, -, rfl⟩ := hi
    have hj : (0 : Int) ≤ (j : Int) := Int.ofNat_nonneg j
    linarith
  have hdx' := hoff dx hdx
  have hdy' := hoff dy hdy
  have hdz' := hoff dz hdz
  refine ⟨?_, ?_, ?_⟩ <;> simp only [] <;> omega

theorem grid_origin_margin_witness :
    4 ≤ (UIntKey96.nearest_key_min (sample_particle_at 3).coord (1 / (1 / 2 : ℚ))
          (grid_origin [sample_particle_at 3, sample_particle_at 10] 2 (1 / 2))).kx - 2
    ∧ 4 ≤ (UIntKey96.nearest_key_min (sample_particle_at 3).coord (1 / (1 / 2 : ℚ))
          (grid_origin [sample_particle_at 3, sample_particle_at 10] 2 (1 / 2))).ky - 2
    ∧ 4 ≤ (UIntKey96.nearest_key_min (sample_particle_at 3).coord (1 / (1 / 2 : ℚ))
          (grid_origin [sample_particle_at 3, sample_particle_at 10] 2 (1 / 2))).kz - 2
    ∧ ∀ k ∈ (UIntKey96.nearest_key_min (sample_particle_at 3).coord (1 / (1 / 2 : ℚ))
          (grid_origin [sample_particle_at 3, sample_particle_at 10] 2 (1 / 2))).nearby_keys 2,
        4 ≤ k.kx ∧ 4 ≤ k.ky ∧ 4 ≤ k.kz :=
  grid_origin_margin [sample_particle_at 3, sample_particle_at 10] 2 (1 / 2)
    (sample_particle_at 3) (List.mem_cons_self _ _) (by norm_num)

end OriginClaims

section ShardClaims

theorem shard_istart_le_iend (n nthreads t : Nat) (ht : t < nthreads) :
    shard_istart n nthreads t ≤ shard_iend n nthreads t := by
  unfold shard_istart shard_iend
  by_cases h : t = nthreads - 1
  · rw [if_pos h]
    calc t * (n / nthreads) ≤ nthreads * (n / nthreads) :=
          Nat.mul_le_mul_right _ (le_of_lt ht)
      _ ≤ n := Nat.mul_div_le n nthreads
  · rw [if_neg h]
    exact Nat.mul_le_mul_right _ (Nat.le_succ t)

theorem shard_iend_le_istart (n nthreads t u : Nat) (htu : t < u) (hu : u < nthreads) :
    shard_iend n nthreads t ≤ shard_istart n nthreads u := by
  unfold shard_istart shard_iend
  rw [if_neg (by omega)]
  exact Nat.mul_le_mul_right _ htu

/-- C22. Shard partition: for at least one worker, the index ranges
`[istart_t, iend_t)` of the workers `t = 0, ..., nthreads - 1` start at 0, end at
`n`, are contiguous (each range ends where the next one starts), and every
index below `n` lies in the range of exactly one worker; accordingly the slices
of the input array, taken in the order of the workers, make up the input array,
so every particle is deposited by exactly one worker, once. -/
theorem shard_partition (n nthreads : Nat) (hT : 1 ≤ nthreads) :
    shard_istart n nthreads 0 = 0
    ∧ shard_iend n nthreads (nthreads - 1) = n
    ∧ (∀ t, t + 1 < nthreads → shard_iend n nthreads t = shard_istart n nthreads (t + 1))
    ∧ (∀ t, t < nthreads → shard_istart n nthreads t ≤ shard_iend n nthreads t)
    ∧ (∀ i, i < n →
        ∃! t, t < nthreads ∧ shard_istart n nthreads t ≤ i ∧ i < shard_iend n nthreads t)
    ∧ (∀ input : List (cvtx_P3D K), input.length = n →
        (List.range nthreads).flatMap (shard_slice input nthreads) = input) := by
  refine ⟨by simp [shard_istart], by simp [shard_iend], ?_,
    fun t ht => shard_istart_le_iend n nthreads t ht, ?_,
    fun input _ => shard_slices_cover input nthreads hT⟩
  · intro t ht
    unfold shard_istart shard_iend
    rw [if_neg (by omega)]
  · intro i hi
    have hex : ∃ t, t < nthreads ∧ shard_istart n nthreads t ≤ i
        ∧ i < shard_iend n nthreads t := by
      by_cases hlast : (nthreads - 1) * (n / nthreads) ≤ i
      · refine ⟨nthreads - 1, by omega, hlast, ?_⟩
        unfold shard_iend
        rw [if_pos rfl]
        exact hi
      · have hlt : i < (nthreads - 1) * (n / nthreads) := not_le.mp hlast
        have hq : 0 < n / nthreads := by
          rcases Nat.eq_zero_or_pos (n / nthreads) with h0 | h0
          · rw [h0, Nat.mul_zero] at hlt; exact absurd hlt (Nat.not_lt_zero i)
          · exact h0
        have ht : i / (n / nthreads) < nthreads - 1 := (Nat.div_lt_iff_lt_mul hq).mpr hlt
        refine ⟨i / (n / nthreads), by omega, Nat.div_mul_le_self i (n / nthreads), ?_⟩
        unfold shard_iend
        rw [if_neg (by omega)]
        rw [Nat.mul_comm]
        exact Nat.lt_mul_div_succ i hq
    obtain ⟨t, ht, hlo, hhi⟩ := hex
    refine ⟨t, ⟨ht, hlo, hhi⟩, ?_⟩
    rintro u ⟨hu, hulo, huhi⟩
    rcases Nat.lt_trichotomy u t with h | h | h
    · have := shard_iend_le_istart n nthreads u t h ht
      omega
    · exact h
    · have := shard_iend_le_istart n nthreads t u h hu
      omega

theorem shard_partition_witness :
    shard_istart 10 3 0 = 0
    ∧ shard_iend 10 3 (3 - 1) = 10
    ∧ (∀ t, t + 1 < 3 → shard_iend 10 3 t = shard_istart 10 3 (t + 1))
    ∧ (∀ t, t < 3 → shard_istart 10 3 t ≤ shard_iend 10 3 t)
    ∧ (∀ i, i < 10 → ∃! t, t < 3 ∧ shard_istart 10 3 t ≤ i ∧ i < shard_iend 10 3 t)
    ∧ (∀ input : List (cvtx_P3D ℚ), input.length = 10 →
        (List.range 3).flatMap (shard_slice input 3) = input) :=
  shard_partition 10 3 (by decide)

end ShardClaims

section NegligibleClaims

variable [LinearOrderedField K]

theorem exists_ge_mean (strs : List K) (hne : strs ≠ []) :
    ∃ s ∈ strs, farray_info_mean strs ≤ s := by
  apply List.exists_le_of_sum_le hne (fun _ => farray_info_mean strs) (fun s => s)
  have hlen : (strs.length : K) ≠ 0 := by
    have : strs.length ≠ 0 := fun h => hne (List.length_eq_zero.mp h)
    exact_mod_cast this
  rw [List.map_const', List.sum_replicate, nsmul_eq_mul, List.map_id']
  unfold farray_info_mean
  rw [mul_div_cancel₀ _ hlen]

theorem cull_kept_ne_nil (strs : List K) (thr : K) (s : K) (hs : s ∈ strs) (hgt : thr < s) :
    cull_kept strs thr (strs.length : Int) strs.length ≠ [] := by
  obtain ⟨i, hi, rfl⟩ := List.getElem_of_mem hs
  intro hnil
  have hmem : i ∈ cull_kept strs thr (strs.length : Int) strs.length := by
    unfold cull_kept
    rw [List.mem_filter]
    refine ⟨List.mem_range.mpr hi, ?_⟩
    rw [decide_eq_true_iff, List.getD_eq_getElem _ _ hi]
    exact ⟨hgt, by exact_mod_cast hi⟩
  rw [hnil] at hmem
  exact absurd hmem (List.not_mem_nil i)

/-- C23. The negligible-strength pass keeps a particle: for a list of strengths
whose mean is positive (so the list is not empty) and a fraction below 1, at
least one strength is strictly greater than `mean * fraction`, so
`cvtx_remove_particles_under_str_threshold` called with that threshold and
`max_keepable = n` returns a count of at least 1, and the divisor of its
deficit division is not zero. -/
theorem negligible_pass_keeps_one (io_arr : List (cvtx_P3D K)) (strs : List K)
    (negligible_vort : K) (hmean : 0 < farray_info_mean strs) (hfrac : negligible_vort < 1) :
    (∃ s ∈ strs, farray_info_mean strs * negligible_vort < s)
    ∧ 1 ≤ (cvtx_remove_particles_under_str_threshold io_arr strs (strs.length : Int)
        (farray_info_mean strs * negligible_vort) (strs.length : Int)).1
    ∧ (((cvtx_remove_particles_under_str_threshold io_arr strs (strs.length : Int)
        (farray_info_mean strs * negligible_vort) (strs.length : Int)).1 : Int) : K) ≠ 0 := by
  have hne : strs ≠ [] := by
    rintro rfl
    simp [farray_info_mean] at hmean
  obtain ⟨s, hs, hge⟩ := exists_ge_mean strs hne
  have hthr : farray_info_mean strs * negligible_vort < s := by
    have : farray_info_mean strs * negligible_vort < farray_info_mean strs * 1 :=
      mul_lt_mul_of_pos_left hfrac hmean
    linarith
  have hk := cull_kept_ne_nil strs (farray_info_mean strs * negligible_vort) s hs hthr
  have hlen : 1 ≤ (cull_kept strs (farray_info_mean strs * negligible_vort)
      (strs.length : Int) strs.length).length :=
    List.length_pos.mpr hk
  have hcount := cull_count io_arr strs (strs.length : Int)
    (farray_info_mean strs * negligible_vort) (strs.length : Int)
  rw [Int.toNat_ofNat] at hcount
  refine ⟨⟨s, hs, hthr⟩, ?_, ?_⟩
  · rw [hcount]; exact_mod_cast hlen
  · rw [hcount]
    have : (cull_kept strs (farray_info_mean strs * negligible_vort)
        (strs.length : Int) strs.length).length ≠ 0 := by omega
    exact_mod_cast this

theorem negligible_pass_keeps_one_witness :
    (∃ s ∈ sample_five_strs, farray_info_mean sample_five_strs * (1 / 2) < s)
    ∧ 1 ≤ (cvtx_remove_particles_under_str_threshold sample_five sample_five_strs
        (sample_five_strs.length : Int)
        (farray_info_mean sample_five_strs * (1 / 2)) (sample_five_strs.length : Int)).1
    ∧ (((cvtx_remove_particles_under_str_threshold sample_five sample_five_strs
        (sample_five_strs.length : Int)
        (farray_info_mean sample_five_strs * (1 / 2))
        (sample_five_strs.length : Int)).1 : Int) : ℚ) ≠ 0 :=
  negligible_pass_keeps_one sample_five sample_five_strs (1 / 2)
    (by norm_num [farray_info_mean, sample_five_strs]) (by norm_num)

end NegligibleClaims

section AntisymmetryClaims

variable [LinearOrderedField K]

/-- Swapping the two particles of `cvtx_P3D_S2S_dvort` negates the result. -/
theorem S2S_dvort_swap (sqrtf : K → K) (a b : cvtx_P3D K) (kernel : cvtx_VortFunc K)
    (regularisation_radius : K) :
    cvtx_P3D_S2S_dvort sqrtf a b kernel regularisation_radius
      = -cvtx_P3D_S2S_dvort sqrtf b a kernel regularisation_radius := by
  unfold cvtx_P3D_S2S_dvort
  by_cases h : a.coord = b.coord
  · rw [if_pos ((bsv_V3f_isequal_iff _ _).mpr h), if_pos ((bsv_V3f_isequal_iff _ _).mpr h.symm)]
    ext <;> simp [bsv_V3f_zero]
  · rw [if_neg (by rw [bsv_V3f_isequal_of_ne h]; decide),
      if_neg (by rw [bsv_V3f_isequal_of_ne (Ne.symm h)]; decide)]
    simp only []
    rw [bsv_V3f_abs_minus_comm sqrtf a.coord b.coord]
    generalize bsv_V3f_abs sqrtf (bsv_V3f_minus b.coord a.coord) = radd
    generalize kernel.combined_3D |radd / regularisation_radius| = gf
    ext <;>
      simp only [bsv_V3f_mult, bsv_V3f_plus, bsv_V3f_div, bsv_V3f_cross, bsv_V3f_dot,
        bsv_V3f_minus, bsv_V3f_neg_x0, bsv_V3f_neg_x1, bsv_V3f_neg_x2] <;>
      ring

theorem sum_sum_swap {α β : Type} (f : α → β → bsv_V3f K) (l1 : List α) (l2 : List β) :
    (l1.map (fun a => (l2.map (fun b => f a b)).sum)).sum
      = (l2.map (fun b => (l1.map (fun a => f a b)).sum)).sum := by
  induction l1 with
  | nil => simp
  | cons x xs ih =>
    simp only [List.map_cons, List.sum_cons, ih]
    rw [List.sum_map_add]

theorem eq_zero_of_eq_neg (v : bsv_V3f K) (h : v = -v) : v = 0 := by
  have h0 := congrArg bsv_V3f.x0 h
  have h1 := congrArg bsv_V3f.x1 h
  have h2 := congrArg bsv_V3f.x2 h
  simp only [bsv_V3f_neg_x0, bsv_V3f_neg_x1, bsv_V3f_neg_x2] at h0 h1 h2
  ext
  · simp only [bsv_V3f_zero_x0]; linarith
  · simp only [bsv_V3f_zero_x1]; linarith
  · simp only [bsv_V3f_zero_x2]; linarith

theorem sum_map_neg_vec {ι : Type} (l : List ι) (f : ι → bsv_V3f K) :
    (l.map (fun i => -f i)).sum = -(l.map f).sum := by
  induction l with
  | nil => simp
  | cons x xs ih => simp only [List.map_cons, List.sum_cons, ih, neg_add]

/-- C24. Antisymmetry of vortex stretching: `cvtx_P3D_S2S_dvort(a, b)` is the
negative of `cvtx_P3D_S2S_dvort(b, a)` for every pair of particles, kernel and
regularisation radius; consequently the sum of the vorticity rates of change
over all pairs of a particle set, which is the sum of the entries that
`cpu_brute_force_P3D_M2M_dvort` computes for the set acting on itself, is the
zero vector. -/
theorem S2S_dvort_antisymmetric (sqrtf : K → K) (kernel : cvtx_VortFunc K) (sigma : K) :
    (∀ a b : cvtx_P3D K,
      cvtx_P3D_S2S_dvort sqrtf a b kernel sigma = -cvtx_P3D_S2S_dvort sqrtf b a kernel sigma)
    ∧ (∀ particles : List (cvtx_P3D K),
      (particles.map (fun target =>
        (particles.map (fun source =>
          cvtx_P3D_S2S_dvort sqrtf source target kernel sigma)).sum)).sum = 0
      ∧ (cpu_brute_force_P3D_M2M_dvort sqrtf particles particles kernel sigma).sum = 0) := by
  refine ⟨fun a b => S2S_dvort_swap sqrtf a b kernel sigma, ?_⟩
  intro particles
  have hzero : (particles.map (fun target =>
      (particles.map (fun source =>
        cvtx_P3D_S2S_dvort sqrtf source target kernel sigma)).sum)).sum = 0 := by
    apply eq_zero_of_eq_neg
    conv_lhs => rw [sum_sum_swap]
    rw [← sum_map_neg_vec]
    congr 1
    apply List.map_congr_left
    intro a _
    rw [← sum_map_neg_vec]
    congr 1
    apply List.map_congr_left
    intro b _
    exact S2S_dvort_swap sqrtf a b kernel sigma
  refine ⟨hzero, ?_⟩
  rw [← hzero]
  unfold cpu_brute_force_P3D_M2M_dvort cvtx_P3D_M2S_dvort
  congr 1
  apply List.map_congr_left
  intro t _
  simp only []
  rw [accum_fold]
  ext <;> simp

end AntisymmetryClaims

end Cvortex
